import Mathlib

/-!
Shallow embedding of the TX7332 register-image compiler and pulse-pattern
synthesizer (`pyfus/io/ustx.py`), together with proofs about the
specification's claims.

Python `float` arithmetic is modelled by `ℚ` (exact real arithmetic; every
concrete input used in a theorem below is chosen so that the double-precision
computation of the source agrees with the rational one).  Python `int` is
modelled by `ℤ`; `int(x)` on a float (truncation toward zero) is `pyInt`.
Python dictionaries with integer keys are modelled by insertion-ordered
association lists (`Dict`).  Exceptions are modelled by `Except Err`.
-/

namespace Ustx

/-- The typed failures of the compiler (the source raises `ValueError`s with
distinguishing messages; `divisionByZero`, `keyError` and `indexError` model
Python `ZeroDivisionError`, `KeyError` and `IndexError`). -/
inductive Err where
  | valueOutOfRange
  | profileNotFound
  | patternOverflow
  | divisionByZero
  | lengthMismatch
  | invalidProfileIndex
  | invalidChannel
  | invalidPeriod
  | notReady
  | unknownUnit
  | keyError
  | indexError
  deriving DecidableEq, Repr

/-- Python `int(x)` applied to a float: truncation toward zero. -/
def pyInt (q : ℚ) : ℤ := if 0 ≤ q then ⌊q⌋ else ⌈q⌉

/- Bitwise operators on `ℤ`, giving Python's arbitrary-precision two's
complement semantics to the notation used in the source. -/
instance : AndOp ℤ := ⟨Int.land⟩

instance : OrOp ℤ := ⟨Int.lor⟩

instance : Complement ℤ := ⟨Int.lnot⟩

def NUM_CHANNELS : ℕ := 32

def REGISTER_WIDTH : ℕ := 32

/-- `set_register_value(reg_value, value, lsb, width)` from the source:
masked read-modify-write of a `width`-bit field at offset `lsb`;
raises `ValueError` when `value < 0 or value > mask`. -/
def set_register_value (reg_value value : ℤ) (lsb : ℕ) (width : Option ℕ) :
    Except Err ℤ :=
  let w := width.getD (REGISTER_WIDTH - lsb)
  let mask : ℤ := 1 <<< (w : ℤ) - 1
  if value < 0 ∨ mask < value then .error .valueOutOfRange
  else .ok ((reg_value &&& ~~~(mask <<< (lsb : ℤ))) ||| ((value &&& mask) <<< (lsb : ℤ)))

/-- `get_register_value(reg_value, lsb, width)` from the source. -/
def get_register_value (reg_value : ℤ) (lsb : ℕ) (width : Option ℕ) : ℤ :=
  let w := width.getD (REGISTER_WIDTH - lsb)
  let mask : ℤ := 1 <<< (w : ℤ) - 1
  (reg_value >>> (lsb : ℤ)) &&& mask

/-- The masked read-modify-write of `set_register_value`, on `ℕ`. -/
def natSet (r n lsb w : ℕ) : ℕ :=
  Nat.ldiff r ((2 ^ w - 1) <<< lsb) ||| ((n &&& (2 ^ w - 1)) <<< lsb)

/-- The field extraction of `get_register_value`, on `ℕ`. -/
def natGet (a lsb w : ℕ) : ℕ := (a >>> lsb) &&& (2 ^ w - 1)

theorem natGet_testBit (a lsb w i : ℕ) :
    (natGet a lsb w).testBit i = (a.testBit (lsb + i) && decide (i < w)) := by
  simp [natGet, Nat.testBit_land, Nat.testBit_shiftRight, Nat.testBit_two_pow_sub_one,
    Bool.and_comm]

theorem natSet_testBit (r n lsb w i : ℕ) :
    (natSet r n lsb w).testBit i =
      if lsb ≤ i ∧ i < lsb + w then n.testBit (i - lsb) else r.testBit i := by
  simp only [natSet, Nat.testBit_lor, Nat.testBit_ldiff, Nat.testBit_land,
    Nat.testBit_shiftLeft, Nat.testBit_two_pow_sub_one, ge_iff_le]
  rcases Nat.lt_or_ge i lsb with h | h
  · have h1 : ¬ lsb ≤ i := by omega
    have h2 : ¬ (lsb ≤ i ∧ i < lsb + w) := by omega
    simp [h1, h2]
  · rcases Nat.lt_or_ge i (lsb + w) with h' | h'
    · have h1 : lsb ≤ i := h
      have h2 : i - lsb < w := by omega
      have h3 : lsb ≤ i ∧ i < lsb + w := by omega
      simp [h1, h2, h3]
    · have h2 : ¬ (i - lsb < w) := by omega
      have h3 : ¬ (lsb ≤ i ∧ i < lsb + w) := by omega
      have h4 : ¬ (i < lsb + w) := by omega
      simp [h, h2, h3, h4]

theorem natGet_natSet_same (r n lsb w : ℕ) (hn : n < 2 ^ w) :
    natGet (natSet r n lsb w) lsb w = n := by
  apply Nat.eq_of_testBit_eq
  intro i
  rw [natGet_testBit, natSet_testBit]
  rcases Nat.lt_or_ge i w with h | h
  · have h1 : lsb ≤ lsb + i ∧ lsb + i < lsb + w := by omega
    simp [h1, h]
  · have h1 : ¬ (lsb ≤ lsb + i ∧ lsb + i < lsb + w) := by omega
    have h2 : n.testBit i = false := Nat.testBit_lt_two_pow (lt_of_lt_of_le hn (Nat.pow_le_pow_right (by norm_num) h))
    simp [h1, h2, h]

theorem natGet_natSet_disjoint (r n lsb w l2 w2 : ℕ)
    (hd : l2 + w2 ≤ lsb ∨ lsb + w ≤ l2) :
    natGet (natSet r n lsb w) l2 w2 = natGet r l2 w2 := by
  apply Nat.eq_of_testBit_eq
  intro i
  rw [natGet_testBit, natGet_testBit, natSet_testBit]
  rcases Nat.lt_or_ge i w2 with h | h
  · have h1 : ¬ (lsb ≤ l2 + i ∧ l2 + i < lsb + w) := by omega
    simp [h1]
  · have h1 : ¬ i < w2 := by omega
    simp [h1]

theorem int_ofNat_land_lnot (a b : ℕ) :
    (a : ℤ) &&& ~~~(b : ℤ) = ((Nat.ldiff a b : ℕ) : ℤ) := rfl

theorem int_ofNat_land (a b : ℕ) : (a : ℤ) &&& (b : ℤ) = ((a &&& b : ℕ) : ℤ) := rfl

theorem int_ofNat_lor (a b : ℕ) : (a : ℤ) ||| (b : ℤ) = ((a ||| b : ℕ) : ℤ) := rfl

theorem cast_two_pow (w : ℕ) : ((2 ^ w : ℕ) : ℤ) = 2 ^ w := by
  push_cast
  ring

theorem set_register_value_some (reg v : ℤ) (lsb w : ℕ) :
    set_register_value reg v lsb (some w) =
      if v < 0 ∨ (1 <<< (w : ℤ) - 1) < v then .error .valueOutOfRange
      else .ok ((reg &&& ~~~((1 <<< (w : ℤ) - 1) <<< (lsb : ℤ))) |||
        ((v &&& (1 <<< (w : ℤ) - 1)) <<< (lsb : ℤ))) := rfl

theorem get_register_value_some (reg : ℤ) (lsb w : ℕ) :
    get_register_value reg lsb (some w) = (reg >>> (lsb : ℤ)) &&& (1 <<< (w : ℤ) - 1) := rfl

theorem int_mask_eq (w : ℕ) : (1 <<< (w : ℤ) - 1 : ℤ) = ((2 ^ w - 1 : ℕ) : ℤ) := by
  have h1 : ((1 : ℕ) : ℤ) <<< ((w : ℕ) : ℤ) = ((1 <<< w : ℕ) : ℤ) :=
    Int.shiftLeft_coe_nat 1 w
  have h2 : (1 : ℕ) <<< w = 2 ^ w := by
    rw [Nat.shiftLeft_eq, one_mul]
  have h3 : (1 : ℕ) ≤ 2 ^ w := Nat.one_le_two_pow
  rw [h2] at h1
  have h4 : ((1 : ℕ) : ℤ) = (1 : ℤ) := by norm_cast
  rw [h4] at h1
  rw [h1]
  omega

theorem set_register_value_eq_ok (r n lsb w : ℕ) (hn : n < 2 ^ w) :
    set_register_value (r : ℤ) (n : ℤ) lsb (some w) = .ok ((natSet r n lsb w : ℕ) : ℤ) := by
  have hmask := int_mask_eq w
  have hcond : ¬ ((n : ℤ) < 0 ∨ (1 <<< (w : ℤ) - 1 : ℤ) < (n : ℤ)) := by
    rw [hmask]
    omega
  rw [set_register_value_some, if_neg hcond]
  congr 1
  rw [hmask]
  rw [Int.shiftLeft_coe_nat, int_ofNat_land_lnot, int_ofNat_land,
    Int.shiftLeft_coe_nat, int_ofNat_lor]
  rfl

theorem set_register_value_eq_error (reg v : ℤ) (lsb w : ℕ)
    (h : v < 0 ∨ 2 ^ w ≤ v) :
    set_register_value reg v lsb (some w) = .error .valueOutOfRange := by
  have hmask := int_mask_eq w
  have hpow := cast_two_pow w
  have h1 : (1 : ℕ) ≤ 2 ^ w := Nat.one_le_two_pow
  have hcond : v < 0 ∨ (1 <<< (w : ℤ) - 1 : ℤ) < v := by
    rw [hmask]
    omega
  rw [set_register_value_some, if_pos hcond]

theorem set_register_value_ok_bounds (reg v : ℤ) (lsb w : ℕ) (r : ℤ)
    (h : set_register_value reg v lsb (some w) = .ok r) : 0 ≤ v ∧ v < 2 ^ w := by
  have hpow := cast_two_pow w
  by_contra hc
  rw [set_register_value_eq_error reg v lsb w (by omega)] at h
  exact Except.noConfusion h

theorem set_ok_natSet (reg v : ℤ) (lsb w : ℕ) (r : ℤ) (hreg : 0 ≤ reg)
    (h : set_register_value reg v lsb (some w) = .ok r) :
    0 ≤ v ∧ v < 2 ^ w ∧ r = ((natSet reg.toNat v.toNat lsb w : ℕ) : ℤ) := by
  have hpow := cast_two_pow w
  obtain ⟨h0, h1⟩ := set_register_value_ok_bounds reg v lsb w r h
  refine ⟨h0, h1, ?_⟩
  have hvn : v.toNat < 2 ^ w := by
    have := Int.toNat_of_nonneg h0
    omega
  rw [← Int.toNat_of_nonneg hreg, ← Int.toNat_of_nonneg h0] at h
  rw [set_register_value_eq_ok reg.toNat v.toNat lsb w hvn] at h
  exact (Except.ok.injEq _ _ ▸ h.symm)

theorem set_ok_nonneg (reg v : ℤ) (lsb w : ℕ) (r : ℤ) (hreg : 0 ≤ reg)
    (h : set_register_value reg v lsb (some w) = .ok r) : 0 ≤ r := by
  obtain ⟨-, -, rfl⟩ := set_ok_natSet reg v lsb w r hreg h
  exact Int.ofNat_nonneg _

theorem get_register_value_coe_nat (a lsb w : ℕ) :
    get_register_value (a : ℤ) lsb (some w) = ((natGet a lsb w : ℕ) : ℤ) := by
  rw [get_register_value_some, int_mask_eq, Int.shiftRight_coe_nat, int_ofNat_land]
  rfl

theorem get_set_same (reg v : ℤ) (lsb w : ℕ) (r : ℤ) (hreg : 0 ≤ reg)
    (h : set_register_value reg v lsb (some w) = .ok r) :
    get_register_value r lsb (some w) = v := by
  have hpow := cast_two_pow w
  obtain ⟨h0, h1, rfl⟩ := set_ok_natSet reg v lsb w r hreg h
  rw [get_register_value_coe_nat]
  have hvn : v.toNat < 2 ^ w := by
    have := Int.toNat_of_nonneg h0
    omega
  rw [natGet_natSet_same _ _ _ _ hvn, Int.toNat_of_nonneg h0]

theorem get_set_preserve (reg v : ℤ) (lsb w l2 w2 : ℕ) (r : ℤ) (hreg : 0 ≤ reg)
    (h : set_register_value reg v lsb (some w) = .ok r)
    (hd : l2 + w2 ≤ lsb ∨ lsb + w ≤ l2) :
    get_register_value r l2 (some w2) = get_register_value reg l2 (some w2) := by
  obtain ⟨h0, h1, rfl⟩ := set_ok_natSet reg v lsb w r hreg h
  conv_rhs => rw [← Int.toNat_of_nonneg hreg]
  rw [get_register_value_coe_nat, get_register_value_coe_nat,
    natGet_natSet_disjoint _ _ _ _ _ _ hd]

/-- C8: for every 32-bit register value `reg`, value `v`, `lsb` and `width` with
`v < 2^width` and `lsb + width ≤ 32`, extracting the field after setting it
returns `v`, every bit outside `[lsb, lsb+width)` is preserved, and
`set_register_value` fails with `ValueOutOfRange` when `v < 0` or `v ≥ 2^width`. -/
theorem C8_bitfield_roundtrip (reg v : ℤ) (lsb width : ℕ)
    (hreg0 : 0 ≤ reg) (hreg1 : reg < 2 ^ 32) (hlw : lsb + width ≤ 32) :
    ((0 ≤ v ∧ v < 2 ^ width) →
      ∃ r, set_register_value reg v lsb (some width) = .ok r ∧
        get_register_value r lsb (some width) = v ∧
        ∀ i : ℕ, i < 32 → (i < lsb ∨ lsb + width ≤ i) →
          get_register_value r i (some 1) = get_register_value reg i (some 1))
    ∧ ((v < 0 ∨ 2 ^ width ≤ v) →
        set_register_value reg v lsb (some width) = .error .valueOutOfRange) := by
  constructor
  · rintro ⟨h0, h1⟩
    have hpow := cast_two_pow width
    have hvn : v.toNat < 2 ^ width := by
      have := Int.toNat_of_nonneg h0
      omega
    have hok : set_register_value reg v lsb (some width) =
        .ok ((natSet reg.toNat v.toNat lsb width : ℕ) : ℤ) := by
      rw [← Int.toNat_of_nonneg hreg0, ← Int.toNat_of_nonneg h0]
      exact set_register_value_eq_ok reg.toNat v.toNat lsb width hvn
    refine ⟨_, hok, get_set_same reg v lsb width _ hreg0 hok, ?_⟩
    intro i _ hout
    exact get_set_preserve reg v lsb width i 1 _ hreg0 hok (by omega)
  · exact set_register_value_eq_error reg v lsb width

/-- Witness for C8 at `reg = 5`, `v = 3`, `lsb = 4`, `width = 8`. -/
theorem C8_bitfield_roundtrip_witness :
    ∃ r, set_register_value 5 3 4 (some 8) = .ok r ∧
      get_register_value r 4 (some 8) = 3 ∧
      ∀ i : ℕ, i < 32 → (i < 4 ∨ 4 + 8 ≤ i) →
        get_register_value r i (some 1) = get_register_value 5 i (some 1) :=
  (C8_bitfield_roundtrip 5 3 4 8 (by norm_num) (by norm_num) (by norm_num)).1
    (by norm_num)

/-! ## Python dictionaries with `int` keys, as insertion-ordered association lists -/

abbrev Dict := List (ℤ × ℤ)

/-- `d[k] = v`: replace in place when the key exists, else append. -/
def dictSet (d : Dict) (k v : ℤ) : Dict :=
  if d.any (fun kv => kv.1 == k) then d.map (fun kv => if kv.1 == k then (k, v) else kv)
  else d ++ [(k, v)]

/-- `d.get(k)`. -/
def dictGet? (d : Dict) (k : ℤ) : Option ℤ := (d.find? (fun kv => kv.1 == k)).map (·.2)

/-- `d.get(k, default)`. -/
def dictGetD (d : Dict) (k v0 : ℤ) : ℤ := (dictGet? d k).getD v0

/-- `d1.update(d2)`. -/
def dictUpdate (d1 d2 : Dict) : Dict := d2.foldl (fun acc kv => dictSet acc kv.1 kv.2) d1

def dictKeys (d : Dict) : List ℤ := d.map (·.1)

/-! ## Profile descriptors and the per-chip transmitter state -/

def DELAY_PROFILE_INDICES : List ℤ := (List.range' 1 16).map Int.ofNat

def NUM_PATTERN_PROFILES : ℕ := 32

def PATTERN_PROFILE_INDICES : List ℤ := (List.range' 1 NUM_PATTERN_PROFILES).map Int.ofNat

def MAX_PATTERN_PERIODS : ℕ := 16

def MAX_PATTERN_PERIOD_LENGTH : ℤ := 30

def MAX_REPEAT : ℤ := 2 ^ 5 - 1

def MAX_ELASTIC_REPEAT : ℤ := 2 ^ 16 - 1

def DEFAULT_TAIL_COUNT : ℤ := 29

def DEFAULT_CLK_FREQ : ℚ := 64000000

def DEFAULT_PATTERN_DUTY_CYCLE : ℚ := 66 / 100

/-- `DelayProfile`: a slot index, per-channel delays (floats, in `units`),
and a per-channel apodization mask. -/
structure DelayProfile where
  index : ℤ
  delays : List ℚ
  apodizations : List ℤ
  units : String
  deriving DecidableEq, Repr

/-- `PulseProfile`. -/
structure PulseProfile where
  index : ℤ
  frequency : ℚ
  cycles : ℤ
  duty_cycle : ℚ
  tail_count : ℤ
  invert : Bool
  deriving DecidableEq, Repr

/-- `DelayProfile.__post_init__`: default apodization is all ones with the
length of `delays`; a supplied apodization list of a different length and an
index outside `1..16` are rejected. -/
def mkDelayProfile (index : ℤ) (delays : List ℚ) (apodizations : Option (List ℤ))
    (units : String) : Except Err DelayProfile :=
  let num_elements := delays.length
  let apod := apodizations.getD (List.replicate num_elements 1)
  if apod.length ≠ num_elements then .error .lengthMismatch
  else if index ∉ DELAY_PROFILE_INDICES then .error .invalidProfileIndex
  else .ok ⟨index, delays, apod, units⟩

/-- `PulseProfile.__post_init__`. -/
def mkPulseProfile (index : ℤ) (frequency : ℚ) (cycles : ℤ) (duty_cycle : ℚ)
    (tail_count : ℤ) (invert : Bool) : Except Err PulseProfile :=
  if index ∉ PATTERN_PROFILE_INDICES then .error .invalidProfileIndex
  else .ok ⟨index, frequency, cycles, duty_cycle, tail_count, invert⟩

/-- The mutable state of one `Tx7332Registers` compiler. -/
structure Tx7332Registers where
  bf_clk : ℚ
  delay_profiles : List DelayProfile
  pulse_profiles : List PulseProfile
  active_delay_index : Option ℤ
  active_pulse_index : Option ℤ
  deriving DecidableEq, Repr

def delay_profile_indices (s : Tx7332Registers) : List ℤ :=
  s.delay_profiles.map DelayProfile.index

def pulse_profile_indices (s : Tx7332Registers) : List ℤ :=
  s.pulse_profiles.map PulseProfile.index

/-- `Tx7332Registers.add_delay_profile`. -/
def add_delay_profile (s : Tx7332Registers) (delay_profile : DelayProfile)
    (activate : Option Bool) : Except Err Tx7332Registers :=
  if delay_profile.delays.length ≠ NUM_CHANNELS then .error .lengthMismatch
  else
    let indices := delay_profile_indices s
    let profiles :=
      if delay_profile.index ∈ indices then
        s.delay_profiles.set (indices.indexOf delay_profile.index) delay_profile
      else s.delay_profiles ++ [delay_profile]
    let act := activate.getD s.active_delay_index.isNone
    let active := if act then some delay_profile.index else s.active_delay_index
    .ok { s with delay_profiles := profiles, active_delay_index := active }

/-- `Tx7332Registers.add_pulse_profile`. -/
def add_pulse_profile (s : Tx7332Registers) (pulse_profile : PulseProfile)
    (activate : Option Bool) : Except Err Tx7332Registers :=
  let indices := pulse_profile_indices s
  let profiles :=
    if pulse_profile.index ∈ indices then
      s.pulse_profiles.set (indices.indexOf pulse_profile.index) pulse_profile
    else s.pulse_profiles ++ [pulse_profile]
  let act := activate.getD s.active_pulse_index.isNone
  let active := if act then some pulse_profile.index else s.active_pulse_index
  .ok { s with pulse_profiles := profiles, active_pulse_index := active }

/-- `Tx7332Registers.remove_delay_profile`.  The source reassigns the local
`index` to the list position (`index = indices.index(index)`) and then
compares `self.active_delay_index == index` against that position. -/
def remove_delay_profile (s : Tx7332Registers) (index : ℤ) : Except Err Tx7332Registers :=
  let indices := delay_profile_indices s
  if index ∈ indices then
    let pos := indices.indexOf index
    let profiles := s.delay_profiles.eraseIdx pos
    let active := if s.active_delay_index = some (pos : ℤ) then none else s.active_delay_index
    .ok { s with delay_profiles := profiles, active_delay_index := active }
  else .error .profileNotFound

/-- `Tx7332Registers.remove_pulse_profile` (same position-versus-index
comparison as `remove_delay_profile`). -/
def remove_pulse_profile (s : Tx7332Registers) (index : ℤ) : Except Err Tx7332Registers :=
  let indices := pulse_profile_indices s
  if index ∈ indices then
    let pos := indices.indexOf index
    let profiles := s.pulse_profiles.eraseIdx pos
    let active := if s.active_pulse_index = some (pos : ℤ) then none else s.active_pulse_index
    .ok { s with pulse_profiles := profiles, active_pulse_index := active }
  else .error .profileNotFound

/-- `Tx7332Registers.get_delay_profile`: `index` defaults to the active index;
the positional fetch `profiles[indices.index(i)]` is the first profile whose
`index` field equals `i`. -/
def get_delay_profile (s : Tx7332Registers) (index : Option ℤ) : Except Err DelayProfile :=
  let idx := match index with | none => s.active_delay_index | some i => some i
  match idx with
  | none => .error .profileNotFound
  | some i =>
    match s.delay_profiles.find? (fun q => q.index == i) with
    | none => .error .profileNotFound
    | some q => .ok q

/-- `Tx7332Registers.get_pulse_profile`. -/
def get_pulse_profile (s : Tx7332Registers) (index : Option ℤ) : Except Err PulseProfile :=
  let idx := match index with | none => s.active_pulse_index | some i => some i
  match idx with
  | none => .error .profileNotFound
  | some i =>
    match s.pulse_profiles.find? (fun q => q.index == i) with
    | none => .error .profileNotFound
    | some q => .ok q

/-! ## Replace-in-place list lemmas, shared by C5 -/

theorem set_indexOf_map_eq {α : Type} (f : α → ℤ) (l : List α) (p : α)
    (h : f p ∈ l.map f) :
    (l.set ((l.map f).indexOf (f p)) p).map f = l.map f := by
  induction l with
  | nil => simp at h
  | cons a l ih =>
    by_cases ha : f a = f p
    · simp [List.indexOf_cons, ha]
    · have hb : (f a == f p) = false := by simp [ha]
      have h' : f p ∈ l.map f := by
        simp only [List.map_cons, List.mem_cons] at h
        tauto
      simp only [List.map_cons, List.indexOf_cons, hb, cond_false, List.set_cons_succ]
      rw [ih h']

theorem find?_set_indexOf_self {α : Type} (f : α → ℤ) (l : List α) (p : α)
    (h : f p ∈ l.map f) :
    (l.set ((l.map f).indexOf (f p)) p).find? (fun q => f q == f p) = some p := by
  induction l with
  | nil => simp at h
  | cons a l ih =>
    by_cases ha : f a = f p
    · simp [List.indexOf_cons, ha]
    · have hb : (f a == f p) = false := by simp [ha]
      have h' : f p ∈ l.map f := by
        simp only [List.map_cons, List.mem_cons] at h
        tauto
      simp only [List.map_cons, List.indexOf_cons, hb, cond_false, List.set_cons_succ]
      rw [@List.find?_cons_of_neg _ (fun q => f q == f p) a _ (by simp [ha]), ih h']

theorem find?_set_indexOf_other {α : Type} (f : α → ℤ) (l : List α) (p : α) (j : ℤ)
    (hj : j ≠ f p) :
    (l.set ((l.map f).indexOf (f p)) p).find? (fun q => f q == j) =
      l.find? (fun q => f q == j) := by
  induction l with
  | nil => simp
  | cons a l ih =>
    by_cases ha : f a = f p
    · have hb1 : ¬ ((f p == j) = true) := by simp; omega
      have hb2 : ¬ ((f a == j) = true) := by rw [ha]; exact hb1
      simp only [List.map_cons, List.indexOf_cons, ha, beq_self_eq_true, cond_true,
        List.set_cons_zero]
      rw [@List.find?_cons_of_neg _ (fun q => f q == j) p _ hb1,
        @List.find?_cons_of_neg _ (fun q => f q == j) a _ hb2]
    · have hb : (f a == f p) = false := by simp [ha]
      simp only [List.map_cons, List.indexOf_cons, hb, cond_false, List.set_cons_succ]
      by_cases hc : (f a == j) = true
      · rw [@List.find?_cons_of_pos _ (fun q => f q == j) a _ hc,
          @List.find?_cons_of_pos _ (fun q => f q == j) a _ hc]
      · rw [@List.find?_cons_of_neg _ (fun q => f q == j) a _ hc,
          @List.find?_cons_of_neg _ (fun q => f q == j) a _ hc, ih]

theorem find?_append_self {α : Type} (f : α → ℤ) (l : List α) (p : α)
    (h : f p ∉ l.map f) :
    (l ++ [p]).find? (fun q => f q == f p) = some p := by
  induction l with
  | nil => simp
  | cons a l ih =>
    have ha : f a ≠ f p := by
      intro hc
      exact h (by simp [hc])
    have hb : (f a == f p) = false := by simp [ha]
    have h' : f p ∉ l.map f := by
      intro hc
      exact h (by simp [hc])
    simp only [List.cons_append, List.find?_cons, hb, cond_false]
    exact ih h'

theorem find?_append_other {α : Type} (f : α → ℤ) (l : List α) (p : α) (j : ℤ)
    (hj : j ≠ f p) :
    (l ++ [p]).find? (fun q => f q == j) = l.find? (fun q => f q == j) := by
  induction l with
  | nil => simp [show (f p == j) = false by simp; omega]
  | cons a l ih =>
    simp only [List.cons_append, List.find?_cons]
    cases hc : (f a == j) with
    | true => rfl
    | false => exact ih

/-- C10: constructing a `DelayProfile` with a valid index and no apodization
list yields the all-ones mask of the same length as `delays`; a supplied
apodization list of mismatched length is rejected. -/
theorem C10_delay_profile_defaults (index : ℤ) (delays : List ℚ) (units : String)
    (hidx : index ∈ DELAY_PROFILE_INDICES) :
    (mkDelayProfile index delays none units =
      .ok ⟨index, delays, List.replicate delays.length 1, units⟩) ∧
    (∀ apod : List ℤ, apod.length ≠ delays.length →
      mkDelayProfile index delays (some apod) units = .error .lengthMismatch) := by
  constructor
  · simp [mkDelayProfile, hidx]
  · intro apod hlen
    simp [mkDelayProfile, hlen]

/-- Witness for C10 at `index = 3`, `delays = [0, 1/2]`. -/
theorem C10_delay_profile_defaults_witness :
    (mkDelayProfile 3 [0, 1/2] none "s" =
      .ok ⟨3, [0, 1/2], List.replicate ([0, (1/2 : ℚ)]).length 1, "s"⟩) ∧
    (∀ apod : List ℤ, apod.length ≠ ([0, (1/2 : ℚ)]).length →
      mkDelayProfile 3 [0, 1/2] (some apod) "s" = .error .lengthMismatch) :=
  C10_delay_profile_defaults 3 [0, 1/2] "s" (by decide)

/-! ## C1: the remove-profile position/index confusion -/

def dpA : DelayProfile := ⟨1, List.replicate 32 0, List.replicate 32 1, "s"⟩

def dpB : DelayProfile := ⟨2, List.replicate 32 0, List.replicate 32 1, "s"⟩

def sC1 : Tx7332Registers := ⟨64000000, [dpA, dpB], [], some 1, none⟩

/-- C1 is a code bug: in `sC1` the active delay profile is `1`, and removing
profile `2` (which is NOT active) nevertheless clears `active_delay_index`,
because the source compares the active index with the removed profile's list
position (`1`) instead of its `index` field (`2`). -/
theorem C1_remove_profile_position_bug :
    sC1.active_delay_index = some 1 ∧ (1 : ℤ) ≠ 2 ∧
    remove_delay_profile sC1 2 =
      .ok ⟨64000000, [dpA], [], none, none⟩ := by
  refine ⟨rfl, by decide, ?_⟩
  rfl

/-! ## C5: add-profile semantics -/

/-- C5 (amended): `add_*_profile` replaces the stored profile whose `index`
field equals the new profile's, or appends it; the profile becomes active iff
`activate` is explicitly `true`, or `activate` is omitted (`None`) and no
profile of that kind was active before the call.  (With an explicit
`activate = False`, the active index is left unchanged, even on the first
add.) -/
theorem C5_add_profile_amended (s : Tx7332Registers) (dp : DelayProfile)
    (pp : PulseProfile) (act1 act2 : Option Bool) (s1 s2 : Tx7332Registers)
    (h1 : add_delay_profile s dp act1 = .ok s1)
    (h2 : add_pulse_profile s pp act2 = .ok s2) :
    (delay_profile_indices s1 =
        (if dp.index ∈ delay_profile_indices s then delay_profile_indices s
          else delay_profile_indices s ++ [dp.index]) ∧
      s1.delay_profiles.find? (fun q => q.index == dp.index) = some dp ∧
      (∀ j : ℤ, j ≠ dp.index →
        s1.delay_profiles.find? (fun q => q.index == j) =
          s.delay_profiles.find? (fun q => q.index == j)) ∧
      (act1 = some true → s1.active_delay_index = some dp.index) ∧
      (act1 = none → s.active_delay_index = none → s1.active_delay_index = some dp.index) ∧
      (act1 = some false → s1.active_delay_index = s.active_delay_index) ∧
      (act1 = none → s.active_delay_index ≠ none →
        s1.active_delay_index = s.active_delay_index)) ∧
    (pulse_profile_indices s2 =
        (if pp.index ∈ pulse_profile_indices s then pulse_profile_indices s
          else pulse_profile_indices s ++ [pp.index]) ∧
      s2.pulse_profiles.find? (fun q => q.index == pp.index) = some pp ∧
      (∀ j : ℤ, j ≠ pp.index →
        s2.pulse_profiles.find? (fun q => q.index == j) =
          s.pulse_profiles.find? (fun q => q.index == j)) ∧
      (act2 = some true → s2.active_pulse_index = some pp.index) ∧
      (act2 = none → s.active_pulse_index = none → s2.active_pulse_index = some pp.index) ∧
      (act2 = some false → s2.active_pulse_index = s.active_pulse_index) ∧
      (act2 = none → s.active_pulse_index ≠ none →
        s2.active_pulse_index = s.active_pulse_index)) := by
  constructor
  · unfold add_delay_profile at h1
    split at h1
    · exact Except.noConfusion h1
    · simp only [Except.ok.injEq] at h1
      subst h1
      simp only [delay_profile_indices]
      refine ⟨?_, ?_, ?_, ?_, ?_, ?_, ?_⟩
      · by_cases hmem : dp.index ∈ List.map DelayProfile.index s.delay_profiles
        · rw [if_pos hmem, if_pos hmem]
          exact set_indexOf_map_eq DelayProfile.index s.delay_profiles dp hmem
        · rw [if_neg hmem, if_neg hmem]
          simp
      · by_cases hmem : dp.index ∈ List.map DelayProfile.index s.delay_profiles
        · rw [if_pos hmem]
          exact find?_set_indexOf_self DelayProfile.index s.delay_profiles dp hmem
        · rw [if_neg hmem]
          exact find?_append_self DelayProfile.index s.delay_profiles dp hmem
      · intro j hj
        by_cases hmem : dp.index ∈ List.map DelayProfile.index s.delay_profiles
        · rw [if_pos hmem]
          exact find?_set_indexOf_other DelayProfile.index s.delay_profiles dp j hj
        · rw [if_neg hmem]
          exact find?_append_other DelayProfile.index s.delay_profiles dp j hj
      · rintro rfl
        simp
      · rintro rfl hact
        simp [hact]
      · rintro rfl
        simp
      · rintro rfl hact
        rcases ha : s.active_delay_index with - | j
        · exact absurd ha hact
        · simp [ha]
  · unfold add_pulse_profile at h2
    simp only [Except.ok.injEq] at h2
    subst h2
    simp only [pulse_profile_indices]
    refine ⟨?_, ?_, ?_, ?_, ?_, ?_, ?_⟩
    · by_cases hmem : pp.index ∈ List.map PulseProfile.index s.pulse_profiles
      · rw [if_pos hmem, if_pos hmem]
        exact set_indexOf_map_eq PulseProfile.index s.pulse_profiles pp hmem
      · rw [if_neg hmem, if_neg hmem]
        simp
    · by_cases hmem : pp.index ∈ List.map PulseProfile.index s.pulse_profiles
      · rw [if_pos hmem]
        exact find?_set_indexOf_self PulseProfile.index s.pulse_profiles pp hmem
      · rw [if_neg hmem]
        exact find?_append_self PulseProfile.index s.pulse_profiles pp hmem
    · intro j hj
      by_cases hmem : pp.index ∈ List.map PulseProfile.index s.pulse_profiles
      · rw [if_pos hmem]
        exact find?_set_indexOf_other PulseProfile.index s.pulse_profiles pp j hj
      · rw [if_neg hmem]
        exact find?_append_other PulseProfile.index s.pulse_profiles pp j hj
    · rintro rfl
      simp
    · rintro rfl hact
      simp [hact]
    · rintro rfl
      simp
    · rintro rfl hact
      rcases ha : s.active_pulse_index with - | j
      · exact absurd ha hact
      · simp [ha]

def sEmpty : Tx7332Registers := ⟨64000000, [], [], none, none⟩

/-- C5 counterexample: on an empty transmitter (no active delay profile),
adding the first delay profile with an explicit `activate = False` leaves
`active_delay_index = None`; the claim says the first profile added becomes
active even when `activate` is explicitly false. -/
theorem C5_counterexample :
    sEmpty.active_delay_index = none ∧
    add_delay_profile sEmpty dpA (some false) =
      .ok ⟨64000000, [dpA], [], none, none⟩ :=
  ⟨rfl, rfl⟩

def ppA : PulseProfile := ⟨1, 400000, 3, 33/50, 29, false⟩

/-- Witness for C5 at the empty state with `activate = None`. -/
theorem C5_add_profile_amended_witness :
    ∃ s1 s2, add_delay_profile sEmpty dpA none = .ok s1 ∧
      add_pulse_profile sEmpty ppA none = .ok s2 ∧
      s1.active_delay_index = some dpA.index ∧
      s2.active_pulse_index = some ppA.index ∧
      s1.delay_profiles.find? (fun q => q.index == dpA.index) = some dpA := by
  refine ⟨_, _, rfl, rfl, ?_, ?_, ?_⟩
  · exact (C5_add_profile_amended sEmpty dpA ppA none none _ _ rfl rfl).1.2.2.2.2.1 rfl rfl
  · exact (C5_add_profile_amended sEmpty dpA ppA none none _ _ rfl rfl).2.2.2.2.2.1 rfl rfl
  · exact (C5_add_profile_amended sEmpty dpA ppA none none _ _ rfl rfl).1.2.1

/-! ## The pulse-pattern synthesizer (`calc_pulse_pattern`) -/

/-- The result of `calc_pulse_pattern` (the informational sampled waveform
`t`, `y` of the source is omitted; conformance is judged on `levels`,
`lengths`, `clk_div_n`). -/
structure Pattern where
  levels : List ℤ
  lengths : List ℤ
  clk_div_n : ℕ
  deriving DecidableEq, Repr

/-- The inner `while samples > 0` loop of `calc_pulse_pattern`, for one phase.
`fuel` is a structural bound on the iteration count; `samples.toNat` always
suffices because every iteration removes at least 31 samples (and at least
one). -/
def split_go : ℕ → ℤ → List ℤ
  | 0, _ => []
  | Nat.succ fuel, samples =>
    if 0 < samples then
      if MAX_PATTERN_PERIOD_LENGTH + 2 < samples then
        if samples = MAX_PATTERN_PERIOD_LENGTH + 3 then
          (MAX_PATTERN_PERIOD_LENGTH - 1) ::
            split_go fuel (samples - (MAX_PATTERN_PERIOD_LENGTH + 1))
        else
          MAX_PATTERN_PERIOD_LENGTH ::
            split_go fuel (samples - (MAX_PATTERN_PERIOD_LENGTH + 2))
      else [samples - 2]
    else []

/-- Splitting of one phase's sample count into encoded period lengths
(each emitted period spans `length + 2` samples). -/
def split_phase (samples : ℤ) : List ℤ := split_go samples.toNat samples

/-- One iteration of the clock-divider loop of `calc_pulse_pattern`: the
per-period `(levels, lengths)` computed for a given `clk_div_n`.  The
second-half clamp reproduces the source's test
`second_off_samples > 0 and first_off_samples < 2` verbatim (including the
reference to `first_off_samples`). -/
def attempt_pattern (frequency duty_cycle bf_clk : ℚ) (clk_div_n : ℕ) :
    List ℤ × List ℤ :=
  let clk_n := bf_clk / 2 ^ clk_div_n
  let period_samples := pyInt (clk_n / frequency)
  let first_half_period_samples := pyInt ((period_samples : ℚ) / 2)
  let second_half_period_samples := period_samples - first_half_period_samples
  let first_on0 := pyInt ((first_half_period_samples : ℚ) * duty_cycle)
  let first_on1 := if first_on0 < 2 then 2 else first_on0
  let first_off0 := first_half_period_samples - first_on1
  let second_on0 := max 2 (pyInt ((second_half_period_samples : ℚ) * duty_cycle))
  let second_on1 := if second_on0 < 2 then 2 else second_on0
  let second_off0 := second_half_period_samples - second_on1
  let first_off1 := if 0 < first_off0 ∧ first_off0 < 2 then 0 else first_off0
  let first_on2 := if 0 < first_off0 ∧ first_off0 < 2 then first_half_period_samples
    else first_on1
  let second_off1 := if 0 < second_off0 ∧ first_off1 < 2 then 0 else second_off0
  let second_on2 := if 0 < second_off0 ∧ first_off1 < 2 then second_half_period_samples
    else second_on1
  let segs := ([((1 : ℤ), first_on2), ((0 : ℤ), first_off1), ((-1 : ℤ), second_on2),
    ((0 : ℤ), second_off1)]).flatMap fun ph => (split_phase ph.2).map fun len => (ph.1, len)
  (segs.map Prod.fst, segs.map Prod.snd)

/-- The `while clk_div_n < 6` retry loop, with the remaining iteration count
as structural fuel (the source starts at `clk_div_n = 0` with 6 iterations
available); exhausted fuel is the `raise` after the loop. -/
def calc_go (frequency duty_cycle bf_clk : ℚ) : ℕ → ℕ → Except Err Pattern
  | 0, _ => .error .patternOverflow
  | Nat.succ fuel, clk_div_n =>
    let pr := attempt_pattern frequency duty_cycle bf_clk clk_div_n
    if pr.1.length ≤ MAX_PATTERN_PERIODS then .ok ⟨pr.1, pr.2, clk_div_n⟩
    else calc_go frequency duty_cycle bf_clk fuel (clk_div_n + 1)

/-- `calc_pulse_pattern(frequency, duty_cycle, bf_clk)`; `frequency = 0`
raises `ZeroDivisionError` at `clk_n / frequency` in the first iteration. -/
def calc_pulse_pattern (frequency duty_cycle bf_clk : ℚ) : Except Err Pattern :=
  if frequency = 0 then .error .divisionByZero
  else calc_go frequency duty_cycle bf_clk 6 0

/-- Modelled from the spec: the symmetric clamp of §4.2 (each half inspects
its own `off` count), i.e. the second-half clamp tests
`0 < second_off ∧ second_off < 2`.  Everything else is `attempt_pattern`. -/
def attempt_pattern_symmetric (frequency duty_cycle bf_clk : ℚ) (clk_div_n : ℕ) :
    List ℤ × List ℤ :=
  let clk_n := bf_clk / 2 ^ clk_div_n
  let period_samples := pyInt (clk_n / frequency)
  let first_half_period_samples := pyInt ((period_samples : ℚ) / 2)
  let second_half_period_samples := period_samples - first_half_period_samples
  let first_on0 := pyInt ((first_half_period_samples : ℚ) * duty_cycle)
  let first_on1 := if first_on0 < 2 then 2 else first_on0
  let first_off0 := first_half_period_samples - first_on1
  let second_on0 := max 2 (pyInt ((second_half_period_samples : ℚ) * duty_cycle))
  let second_on1 := if second_on0 < 2 then 2 else second_on0
  let second_off0 := second_half_period_samples - second_on1
  let first_off1 := if 0 < first_off0 ∧ first_off0 < 2 then 0 else first_off0
  let first_on2 := if 0 < first_off0 ∧ first_off0 < 2 then first_half_period_samples
    else first_on1
  let second_off1 := if 0 < second_off0 ∧ second_off0 < 2 then 0 else second_off0
  let second_on2 := if 0 < second_off0 ∧ second_off0 < 2 then second_half_period_samples
    else second_on1
  let segs := ([((1 : ℤ), first_on2), ((0 : ℤ), first_off1), ((-1 : ℤ), second_on2),
    ((0 : ℤ), second_off1)]).flatMap fun ph => (split_phase ph.2).map fun len => (ph.1, len)
  (segs.map Prod.fst, segs.map Prod.snd)

/-- Modelled from the spec: the clock-divider loop over the symmetric
per-half clamp. -/
def calc_go_symmetric (frequency duty_cycle bf_clk : ℚ) : ℕ → ℕ → Except Err Pattern
  | 0, _ => .error .patternOverflow
  | Nat.succ fuel, clk_div_n =>
    let pr := attempt_pattern_symmetric frequency duty_cycle bf_clk clk_div_n
    if pr.1.length ≤ MAX_PATTERN_PERIODS then .ok ⟨pr.1, pr.2, clk_div_n⟩
    else calc_go_symmetric frequency duty_cycle bf_clk fuel (clk_div_n + 1)

/-- Modelled from the spec: `calc_pulse_pattern` with the symmetric per-half
clamp of §4.2. -/
def calc_pulse_pattern_symmetric (frequency duty_cycle bf_clk : ℚ) :
    Except Err Pattern :=
  if frequency = 0 then .error .divisionByZero
  else calc_go_symmetric frequency duty_cycle bf_clk 6 0

/-- C2 is a code bug: at `frequency = 1 Hz`, `duty = 1/2`, `bf_clk = 7 Hz`
(period 7 samples, halves 3 and 4), the second half has `on = 2`, `off = 2`,
so by the claim it must not be clamped; the source clamps it anyway (because
it tests `first_off_samples < 2`, and the first half's `off` was clamped to
`0`), producing levels `[1, -1]` instead of the symmetric `[1, -1, 0]`.
All arithmetic at this input is exact in binary floating point. -/
theorem C2_second_half_clamp_bug :
    calc_pulse_pattern 1 (1 / 2) 7 = .ok ⟨[1, -1], [1, 2], 0⟩ ∧
    calc_pulse_pattern_symmetric 1 (1 / 2) 7 = .ok ⟨[1, -1, 0], [1, 0, 0], 0⟩ ∧
    calc_pulse_pattern 1 (1 / 2) 7 ≠ calc_pulse_pattern_symmetric 1 (1 / 2) 7 := by
  have h1 : calc_pulse_pattern 1 (1 / 2) 7 = .ok ⟨[1, -1], [1, 2], 0⟩ := by
    with_unfolding_all rfl
  have h2 : calc_pulse_pattern_symmetric 1 (1 / 2) 7 = .ok ⟨[1, -1, 0], [1, 0, 0], 0⟩ := by
    with_unfolding_all rfl
  refine ⟨h1, h2, ?_⟩
  rw [h1, h2]
  simp

theorem attempt_pattern_length (f d c : ℚ) (n : ℕ) :
    (attempt_pattern f d c n).1.length = (attempt_pattern f d c n).2.length := by
  simp [attempt_pattern]

theorem calc_go_spec (f d c : ℚ) : ∀ fuel n, fuel + n = 6 →
    (∀ p, calc_go f d c fuel n = .ok p →
      p.levels = (attempt_pattern f d c p.clk_div_n).1 ∧
      p.lengths = (attempt_pattern f d c p.clk_div_n).2 ∧
      p.levels.length ≤ 16 ∧ n ≤ p.clk_div_n ∧ p.clk_div_n ≤ 5) ∧
    (∀ e, calc_go f d c fuel n = .error e →
      e = .patternOverflow ∧
      ∀ m, n ≤ m → m < 6 → 16 < (attempt_pattern f d c m).1.length) := by
  intro fuel
  induction fuel with
  | zero =>
    intro n hn
    constructor
    · intro p hp
      exact Except.noConfusion hp
    · intro e he
      simp only [calc_go, Except.error.injEq] at he
      subst he
      exact ⟨rfl, fun m hm hm6 => absurd hm6 (by omega)⟩
  | succ fuel ih =>
    intro n hn
    constructor
    · intro p hp
      simp only [calc_go] at hp
      split at hp
      · rename_i h16
        simp only [Except.ok.injEq] at hp
        subst hp
        refine ⟨rfl, rfl, ?_, ?_, ?_⟩
        · show (attempt_pattern f d c n).1.length ≤ 16
          simpa [MAX_PATTERN_PERIODS] using h16
        · show n ≤ n
          omega
        · show n ≤ 5
          omega
      · obtain ⟨h1, h2, h3, h4, h5⟩ := ((ih (n + 1) (by omega)).1 p hp)
        exact ⟨h1, h2, h3, by omega, h5⟩
    · intro e he
      simp only [calc_go] at he
      split at he
      · exact Except.noConfusion he
      · rename_i h16
        obtain ⟨h1, h2⟩ := (ih (n + 1) (by omega)).2 e he
        refine ⟨h1, ?_⟩
        intro m hm hm6
        rcases Nat.eq_or_lt_of_le hm with h | h
        · subst h
          simp only [MAX_PATTERN_PERIODS] at h16
          omega
        · exact h2 m (by omega) hm6

/-- C6: for every input with `frequency > 0`, `duty_cycle ∈ (0,1]` and
`bf_clk > 0`, `calc_pulse_pattern` either returns a pattern with equally long
`levels`/`lengths` lists of at most 16 entries and `clk_div_n ∈ 0..5`, or
fails with `PatternOverflow` after the attempt at `clk_div_n = 5` produced
more than 16 segments; the retry loop never runs past `clk_div_n = 5`. -/
theorem C6_pattern_bound (frequency duty_cycle bf_clk : ℚ)
    (hf : 0 < frequency) (hd1 : 0 < duty_cycle) (hd2 : duty_cycle ≤ 1)
    (hc : 0 < bf_clk) :
    (∀ p, calc_pulse_pattern frequency duty_cycle bf_clk = .ok p →
      p.levels.length = p.lengths.length ∧ p.levels.length ≤ 16 ∧ p.clk_div_n ≤ 5) ∧
    (∀ e, calc_pulse_pattern frequency duty_cycle bf_clk = .error e →
      e = .patternOverflow ∧
      16 < (attempt_pattern frequency duty_cycle bf_clk 5).1.length) := by
  have hne : ¬ frequency = 0 := by positivity
  constructor
  · intro p hp
    rw [calc_pulse_pattern, if_neg hne] at hp
    obtain ⟨h1, h2, h3, -, h5⟩ := (calc_go_spec frequency duty_cycle bf_clk 6 0 rfl).1 p hp
    refine ⟨?_, h3, h5⟩
    rw [h1, h2, attempt_pattern_length]
  · intro e he
    rw [calc_pulse_pattern, if_neg hne] at he
    obtain ⟨h1, h2⟩ := (calc_go_spec frequency duty_cycle bf_clk 6 0 rfl).2 e he
    exact ⟨h1, h2 5 (by omega) (by omega)⟩

/-- Witness for C6 at `frequency = 4`, `duty = 1/2`, `bf_clk = 16`. -/
theorem C6_pattern_bound_witness :
    (∀ p, calc_pulse_pattern 4 (1 / 2) 16 = .ok p →
      p.levels.length = p.lengths.length ∧ p.levels.length ≤ 16 ∧ p.clk_div_n ≤ 5) ∧
    (∀ e, calc_pulse_pattern 4 (1 / 2) 16 = .error e →
      e = .patternOverflow ∧
      16 < (attempt_pattern 4 (1 / 2) 16 5).1.length) :=
  C6_pattern_bound 4 (1 / 2) 16 (by norm_num) (by norm_num) (by norm_num) (by norm_num)

/-! ## Register addresses and (channel, profile) → (address, lsb) maps -/

def ADDRESS_DELAY_SEL : ℤ := 0x16

def ADDRESS_APODIZATION : ℤ := 0x1B

def ADDRESS_PATTERN_MODE : ℤ := 0x18

def ADDRESS_PATTERN_REPEAT : ℤ := 0x19

def ADDRESS_PATTERN_SEL_G1 : ℤ := 0x1F

def ADDRESS_PATTERN_SEL_G2 : ℤ := 0x1E

/-- The 15 global addresses, in the source's order. -/
def ADDRESSES_GLOBAL : List ℤ :=
  [0x0, 0x1, 0x6, 0xB, 0xC, 0xF, 0x14, 0x15, 0x16, 0x18, 0x19, 0x1F, 0x1E, 0x1A, 0x1B]

/-- `range(0x20, 0x11F+1)`: the 256 delay-data addresses. -/
def ADDRESSES_DELAY_DATA : List ℤ := (List.range' 0x20 0x100).map Int.ofNat

/-- `range(0x120, 0x19F+1)`: the 128 pattern-data addresses. -/
def ADDRESSES_PATTERN_DATA : List ℤ := (List.range' 0x120 0x80).map Int.ofNat

def ADDRESSES : List ℤ := ADDRESSES_GLOBAL ++ ADDRESSES_DELAY_DATA ++ ADDRESSES_PATTERN_DATA

def DELAY_ORDER : List (List ℤ) :=
  [[32, 30], [28, 26], [24, 22], [20, 18], [31, 29], [27, 25], [23, 21], [19, 17],
   [16, 14], [12, 10], [8, 6], [4, 2], [15, 13], [11, 9], [7, 5], [3, 1]]

/-- `DELAY_CHANNEL_MAP` as built by the source: entries
`(channel, row, lsb)` with `lsb = 16*(1-i)` for the `i`-th channel of a row. -/
def DELAY_CHANNEL_MAP : List (ℤ × ℤ × ℕ) :=
  DELAY_ORDER.enum.flatMap fun rc => rc.2.enum.map fun ic => (ic.2, (rc.1 : ℤ), 16 * (1 - ic.1))

def DELAY_PROFILE_OFFSET : ℤ := 16

def DELAY_WIDTH : ℕ := 13

/-- `get_delay_location(channel, profile)`. -/
def get_delay_location (channel profile : ℤ) : Except Err (ℤ × ℕ) :=
  match DELAY_CHANNEL_MAP.find? (fun e => e.1 == channel) with
  | none => .error .invalidChannel
  | some e =>
    if profile ∈ DELAY_PROFILE_INDICES then
      .ok (0x20 + (profile - 1) * DELAY_PROFILE_OFFSET + e.2.1, e.2.2)
    else .error .invalidProfileIndex

def PATTERN_PROFILE_OFFSET : ℤ := 4

def PATTERN_LENGTH_WIDTH : ℕ := 5

def PATTERN_LEVEL_WIDTH : ℕ := 3

def PATTERN_PERIOD_ORDER : List (List ℤ) :=
  [[1, 2, 3, 4], [5, 6, 7, 8], [9, 10, 11, 12], [13, 14, 15, 16]]

/-- `PATTERN_MAP` as built by the source: entries
`(period, row, lsb_lvl, lsb_period)`. -/
def PATTERN_MAP : List (ℤ × ℤ × ℕ × ℕ) :=
  PATTERN_PERIOD_ORDER.enum.flatMap fun rp => rp.2.enum.map fun ip =>
    (ip.2, (rp.1 : ℤ), ip.1 * (PATTERN_LEVEL_WIDTH + PATTERN_LENGTH_WIDTH),
      ip.1 * (PATTERN_LENGTH_WIDTH + PATTERN_LEVEL_WIDTH) + PATTERN_LEVEL_WIDTH)

/-- `get_pattern_location(period, profile)`. -/
def get_pattern_location (period profile : ℤ) : Except Err (ℤ × ℕ × ℕ) :=
  match PATTERN_MAP.find? (fun e => e.1 == period) with
  | none => .error .invalidPeriod
  | some e =>
    if profile ∈ PATTERN_PROFILE_INDICES then
      .ok (0x120 + (profile - 1) * PATTERN_PROFILE_OFFSET + e.2.1, e.2.2.1, e.2.2.2)
    else .error .invalidProfileIndex

/-- Modelled from the spec: `getunitconversion` is imported from
`pyfus.util.units`, which is not among the provided sources; per §6 the core
converts via a table of time-unit factors (s, ms, us, ns) and unknown units
fail with `UnknownUnit`. -/
def unitfactor : String → Except Err ℚ
  | "s" => .ok 1
  | "ms" => .ok (1 / 1000)
  | "us" => .ok (1 / 1000000)
  | "ns" => .ok (1 / 1000000000)
  | _ => .error .unknownUnit

/-- Modelled from the spec: conversion factor from `fromUnit` to `toUnit`. -/
def getunitconversion (fromUnit toUnit : String) : Except Err ℚ := do
  let a ← unitfactor fromUnit
  let b ← unitfactor toUnit
  .ok (a / b)

/-! ## Delay control registers and C9 -/

/-- `Tx7332Registers.get_delay_control_registers` (the source first replaces a
`None` index by the active one, then calls `get_delay_profile`, which performs
the same defaulting). -/
def get_delay_control_registers (s : Tx7332Registers) (index : Option ℤ) :
    Except Err Dict := do
  let delay_profile ← get_delay_profile s index
  let apod_register ← delay_profile.apodizations.enum.foldlM
    (fun acc ia => set_register_value acc (1 - ia.2) ia.1 (some 1)) 0
  let d0 ← set_register_value 0 (delay_profile.index - 1) 12 (some 4)
  let delay_sel_register ← set_register_value d0 (delay_profile.index - 1) 28 (some 4)
  .ok [(ADDRESS_DELAY_SEL, delay_sel_register), (ADDRESS_APODIZATION, apod_register)]

theorem except_bind_ok {ε α β : Type} (a : α) (f : α → Except ε β) :
    ((Except.ok a : Except ε α) >>= f) = f a := rfl

theorem except_bind_error {ε α β : Type} (e : ε) (f : α → Except ε β) :
    ((Except.error e : Except ε α) >>= f) = .error e := rfl

theorem apod_fold_spec (l : List ℤ) : ∀ (k : ℕ) (acc r : ℤ), 0 ≤ acc →
    ((l.enumFrom k).foldlM
      (fun acc ia => set_register_value acc (1 - ia.2) ia.1 (some 1)) acc = .ok r) →
    0 ≤ r ∧
    (∀ j (hj : j < l.length), get_register_value r (k + j) (some 1) = 1 - l.get ⟨j, hj⟩) ∧
    (∀ i : ℕ, i < k → get_register_value r i (some 1) = get_register_value acc i (some 1)) := by
  induction l with
  | nil =>
    intro k acc r hacc h
    simp only [List.enumFrom, List.foldlM, pure, Except.pure, Except.ok.injEq] at h
    subst h
    exact ⟨hacc, fun j hj => absurd hj (by simp), fun i _ => rfl⟩
  | cons a l ih =>
    intro k acc r hacc h
    simp only [List.enumFrom, List.foldlM_cons] at h
    cases hset : set_register_value acc (1 - a) k (some 1) with
    | error e =>
      rw [hset, except_bind_error] at h
      exact Except.noConfusion h
    | ok acc1 =>
      rw [hset, except_bind_ok] at h
      have hacc1 : 0 ≤ acc1 := set_ok_nonneg acc (1 - a) k 1 acc1 hacc hset
      obtain ⟨hr, hbits, hpres⟩ := ih (k + 1) acc1 r hacc1 h
      refine ⟨hr, ?_, ?_⟩
      · intro j hj
        match j with
        | 0 =>
          have h1 : get_register_value r k (some 1) = get_register_value acc1 k (some 1) :=
            hpres k (by omega)
          rw [Nat.add_zero, h1]
          simpa using get_set_same acc (1 - a) k 1 acc1 hacc hset
        | Nat.succ j' =>
          have := hbits j' (by simpa using Nat.lt_of_succ_lt_succ hj)
          rw [show k + 1 + j' = k + (j' + 1) by omega] at this
          simpa using this
      · intro i hi
        rw [hpres i (by omega)]
        exact get_set_preserve acc (1 - a) k 1 i 1 acc1 hacc hset (by omega)

/-- C9: for every delay profile with a 32-entry apodization list that
`get_delay_control_registers` compiles successfully, bit `i` of the
apodization register (address `0x1B`) equals `1 - apod[i]`. -/
theorem C9_apodization_inversion (s : Tx7332Registers) (idx : Option ℤ)
    (p : DelayProfile) (regs : Dict)
    (hp : get_delay_profile s idx = .ok p)
    (hlen : p.apodizations.length = 32)
    (hok : get_delay_control_registers s idx = .ok regs) :
    ∀ j (hj : j < 32),
      get_register_value (dictGetD regs ADDRESS_APODIZATION 0) j (some 1) =
        1 - p.apodizations.get ⟨j, by omega⟩ := by
  intro j hj
  unfold get_delay_control_registers at hok
  rw [hp, except_bind_ok] at hok
  cases hfold : p.apodizations.enum.foldlM
      (fun acc ia => set_register_value acc (1 - ia.2) ia.1 (some 1)) 0 with
  | error e =>
    rw [hfold, except_bind_error] at hok
    exact Except.noConfusion hok
  | ok apod =>
    rw [hfold, except_bind_ok] at hok
    cases h0 : set_register_value 0 (p.index - 1) 12 (some 4) with
    | error e =>
      rw [h0, except_bind_error] at hok
      exact Except.noConfusion hok
    | ok d0 =>
      rw [h0, except_bind_ok] at hok
      cases h1 : set_register_value d0 (p.index - 1) 28 (some 4) with
      | error e =>
        rw [h1, except_bind_error] at hok
        exact Except.noConfusion hok
      | ok dsel =>
        rw [h1, except_bind_ok] at hok
        simp only [Except.ok.injEq] at hok
        subst hok
        have hget : dictGetD [(ADDRESS_DELAY_SEL, dsel), (ADDRESS_APODIZATION, apod)]
            ADDRESS_APODIZATION 0 = apod := by
          simp [dictGetD, dictGet?, ADDRESS_DELAY_SEL, ADDRESS_APODIZATION]
        rw [hget]
        have henum : p.apodizations.enum = p.apodizations.enumFrom 0 := rfl
        rw [henum] at hfold
        obtain ⟨-, hbits, -⟩ := apod_fold_spec p.apodizations 0 0 apod (by omega) hfold
        have := hbits j (by omega)
        simpa using this

def dpC9 : DelayProfile :=
  ⟨1, List.replicate 32 0, [1, 1, 0, 1] ++ List.replicate 28 1, "s"⟩

def sC9 : Tx7332Registers := ⟨64000000, [dpC9], [], some 1, none⟩

def regsC9 : Dict :=
  match get_delay_control_registers sC9 (some 1) with
  | .ok d => d
  | .error _ => []

/-- Witness for C9: with apodization `[1,1,0,1,1,...,1]`, bit `2` of the
apodization register is `1` (the mask is stored inverted). -/
theorem C9_apodization_inversion_witness :
    get_register_value (dictGetD regsC9 ADDRESS_APODIZATION 0) 2 (some 1) = 1 - 0 :=
  C9_apodization_inversion sC9 (some 1) dpC9 regsC9 rfl (by rfl) (by rfl) 2 (by omega)

/-! ## Delay data registers and C3 -/

/-- Python list indexing `l[i]` for `i ≥ 0`: raises `IndexError` past the
end. -/
def listIndex (l : List ℚ) (i : ℕ) : Except Err ℚ :=
  match l.get? i with
  | none => .error .indexError
  | some x => .ok x

/-- One iteration of the channel loop of `get_delay_data_registers`: look up
the delay location, default the register to `0` on first touch, compute
`delay_value = int(delays[channel-1] * getunitconversion(units,'s') * bf_clk)`
and write it as a 13-bit field. -/
def delay_chan_step (s : Tx7332Registers) (p : DelayProfile) (d : Dict)
    (channel : ℕ) : Except Err Dict := do
  let loc ← get_delay_location (channel : ℤ) p.index
  let d := if (dictGet? d loc.1).isSome then d else dictSet d loc.1 0
  let conv ← getunitconversion p.units "s"
  let delay ← listIndex p.delays (channel - 1)
  let delay_value := pyInt (delay * conv * s.bf_clk)
  let nv ← set_register_value (dictGetD d loc.1 0) delay_value loc.2 (some DELAY_WIDTH)
  .ok (dictSet d loc.1 nv)

/-- `Tx7332Registers.get_delay_data_registers` (the `pack = False` path),
iterating `channel in range(1, NUM_CHANNELS+1)`. -/
def get_delay_data_registers (s : Tx7332Registers) (index : Option ℤ) :
    Except Err Dict := do
  let delay_profile ← get_delay_profile s index
  (List.range' 1 NUM_CHANNELS).foldlM (delay_chan_step s delay_profile) []

theorem dictGet?_set_self (d : Dict) (k v : ℤ) : dictGet? (dictSet d k v) k = some v := by
  by_cases hany : d.any (fun kv => kv.1 == k) = true
  · rw [dictSet, if_pos hany]
    induction d with
    | nil => simp at hany
    | cons kv d ih =>
      rw [List.any_cons] at hany
      simp only [List.map_cons]
      by_cases hk : (kv.1 == k) = true
      · rw [if_pos hk]
        unfold dictGet?
        rw [@List.find?_cons_of_pos _ (fun kv => kv.1 == k) (k, v) _ (by simp)]
        rfl
      · rw [if_neg hk]
        unfold dictGet?
        rw [@List.find?_cons_of_neg _ (fun kv => kv.1 == k) kv _ hk]
        have hany' : d.any (fun kv => kv.1 == k) = true := by
          rcases Bool.or_eq_true _ _ |>.mp hany with h | h
          · exact absurd h hk
          · exact h
        exact ih hany'
  · rw [dictSet, if_neg hany]
    unfold dictGet?
    rw [List.find?_append]
    have hnone : d.find? (fun kv => kv.1 == k) = none := by
      rw [List.find?_eq_none]
      intro x hx hc
      exact hany (List.any_eq_true.mpr ⟨x, hx, hc⟩)
    rw [hnone]
    simp

theorem dictGet?_set_other (d : Dict) (k v k' : ℤ) (hk : k' ≠ k) :
    dictGet? (dictSet d k v) k' = dictGet? d k' := by
  unfold dictSet
  split
  · rename_i hany
    clear hany
    unfold dictGet?
    induction d with
    | nil => simp
    | cons kv d ih =>
      simp only [List.map_cons]
      by_cases hkv : (kv.1 == k) = true
      · rw [if_pos hkv]
        have h1 : ¬ ((k, v).1 == k') = true := by simp; omega
        have h2 : ¬ (kv.1 == k') = true := by
          simp only [beq_iff_eq] at hkv ⊢
          omega
        rw [@List.find?_cons_of_neg _ (fun kv => kv.1 == k') (k, v) _ h1,
          @List.find?_cons_of_neg _ (fun kv => kv.1 == k') kv _ h2]
        exact ih
      · rw [if_neg hkv]
        by_cases hc : (kv.1 == k') = true
        · rw [@List.find?_cons_of_pos _ (fun kv => kv.1 == k') kv _ hc,
            @List.find?_cons_of_pos _ (fun kv => kv.1 == k') kv _ hc]
        · rw [@List.find?_cons_of_neg _ (fun kv => kv.1 == k') kv _ hc,
            @List.find?_cons_of_neg _ (fun kv => kv.1 == k') kv _ hc]
          exact ih
  · unfold dictGet?
    rw [List.find?_append]
    have h1 : ([(k, v)]).find? (fun kv => kv.1 == k') = none := by
      simp only [List.find?_singleton]
      have : ¬ ((k, v).1 == k') = true := by simp; omega
      simp [this]
    rw [h1]
    simp

theorem dictGetD_set_self (d : Dict) (k v : ℤ) : dictGetD (dictSet d k v) k 0 = v := by
  rw [dictGetD, dictGet?_set_self]
  rfl

theorem dictGetD_set_other (d : Dict) (k v k' : ℤ) (hk : k' ≠ k) :
    dictGetD (dictSet d k v) k' 0 = dictGetD d k' 0 := by
  rw [dictGetD, dictGet?_set_other d k v k' hk]
  rfl

theorem dictGetD_ensure_self (d : Dict) (a : ℤ) :
    dictGetD (if (dictGet? d a).isSome then d else dictSet d a 0) a 0 = dictGetD d a 0 := by
  split
  · rfl
  · rename_i hnot
    rw [dictGetD_set_self]
    rw [dictGetD]
    cases h : dictGet? d a with
    | none => rfl
    | some v =>
      rw [h] at hnot
      simp at hnot

theorem dictGetD_ensure_other (d : Dict) (a a' : ℤ) (ha : a' ≠ a) :
    dictGetD (if (dictGet? d a).isSome then d else dictSet d a 0) a' 0 = dictGetD d a' 0 := by
  split
  · rfl
  · exact dictGetD_set_other d a 0 a' ha

theorem mem_DELAY_PROFILE_INDICES (x : ℤ) :
    x ∈ DELAY_PROFILE_INDICES ↔ 1 ≤ x ∧ x ≤ 16 := by
  have h : DELAY_PROFILE_INDICES =
      [1, 2, 3, 4, 5, 6, 7, 8, 9, 10, 11, 12, 13, 14, 15, 16] := by rfl
  rw [h]
  simp only [List.mem_cons, List.not_mem_nil, or_false]
  omega

theorem mem_PATTERN_PROFILE_INDICES (x : ℤ) :
    x ∈ PATTERN_PROFILE_INDICES ↔ 1 ≤ x ∧ x ≤ 32 := by
  have h : PATTERN_PROFILE_INDICES =
      [1, 2, 3, 4, 5, 6, 7, 8, 9, 10, 11, 12, 13, 14, 15, 16, 17, 18, 19, 20, 21, 22,
       23, 24, 25, 26, 27, 28, 29, 30, 31, 32] := by rfl
  rw [h]
  simp only [List.mem_cons, List.not_mem_nil, or_false]
  omega

theorem delay_map_bounds :
    ∀ e ∈ DELAY_CHANNEL_MAP, 0 ≤ e.2.1 ∧ e.2.1 ≤ 15 ∧ (e.2.2 = 0 ∨ e.2.2 = 16) := by
  decide

theorem delay_map_inj :
    ∀ e ∈ DELAY_CHANNEL_MAP, ∀ e' ∈ DELAY_CHANNEL_MAP, e.2 = e'.2 → e.1 = e'.1 := by
  decide

theorem get_delay_location_ok (ch idx a : ℤ) (l : ℕ)
    (h : get_delay_location ch idx = .ok (a, l)) :
    ∃ e ∈ DELAY_CHANNEL_MAP, e.1 = ch ∧ idx ∈ DELAY_PROFILE_INDICES ∧
      a = 0x20 + (idx - 1) * DELAY_PROFILE_OFFSET + e.2.1 ∧ l = e.2.2 := by
  unfold get_delay_location at h
  cases hfind : DELAY_CHANNEL_MAP.find? (fun e => e.1 == ch) with
  | none =>
    rw [hfind] at h
    exact Except.noConfusion h
  | some e =>
    rw [hfind] at h
    dsimp only at h
    by_cases hidx : idx ∈ DELAY_PROFILE_INDICES
    · rw [if_pos hidx] at h
      simp only [Except.ok.injEq, Prod.mk.injEq] at h
      exact ⟨e, List.mem_of_find?_eq_some hfind,
        by simpa using List.find?_some hfind, hidx, h.1.symm, h.2.symm⟩
    · rw [if_neg hidx] at h
      exact Except.noConfusion h

theorem delay_loc_lsb (ch idx a : ℤ) (l : ℕ)
    (h : get_delay_location ch idx = .ok (a, l)) : l = 0 ∨ l = 16 := by
  obtain ⟨e, hmem, -, -, -, hl⟩ := get_delay_location_ok ch idx a l h
  rw [hl]
  exact (delay_map_bounds e hmem).2.2

theorem delay_loc_addr (ch idx a : ℤ) (l : ℕ)
    (h : get_delay_location ch idx = .ok (a, l)) : 32 ≤ a ∧ a < 288 := by
  obtain ⟨e, hmem, -, hidx, ha, -⟩ := get_delay_location_ok ch idx a l h
  obtain ⟨h1, h2⟩ := (mem_DELAY_PROFILE_INDICES idx).mp hidx
  obtain ⟨h3, h4, -⟩ := delay_map_bounds e hmem
  rw [ha, DELAY_PROFILE_OFFSET]
  constructor <;> nlinarith

theorem delay_loc_inj (c c' : ℕ) (idx a : ℤ) (l : ℕ)
    (h : get_delay_location (c : ℤ) idx = .ok (a, l))
    (h' : get_delay_location (c' : ℤ) idx = .ok (a, l)) : c = c' := by
  obtain ⟨e, hmem, he1, -, ha, hl⟩ := get_delay_location_ok _ idx a l h
  obtain ⟨e', hmem', he1', -, ha', hl'⟩ := get_delay_location_ok _ idx a l h'
  have hrow : e.2.1 = e'.2.1 := by
    rw [ha] at ha'
    omega
  have hlsb : e.2.2 = e'.2.2 := by omega
  have h2 : e.2 = e'.2 := Prod.ext hrow hlsb
  have := delay_map_inj e hmem e' hmem' h2
  rw [he1, he1'] at this
  exact_mod_cast this

theorem delay_chan_found (c : ℕ) (h1 : 1 ≤ c) (h2 : c ≤ 32) :
    ∃ e, DELAY_CHANNEL_MAP.find? (fun x => x.1 == (c : ℤ)) = some e := by
  interval_cases c <;> exact ⟨_, rfl⟩

theorem get_delay_location_exists (c : ℕ) (idx : ℤ) (h1 : 1 ≤ c) (h2 : c ≤ 32)
    (hidx : idx ∈ DELAY_PROFILE_INDICES) :
    ∃ a l, get_delay_location (c : ℤ) idx = .ok (a, l) := by
  obtain ⟨e, hfind⟩ := delay_chan_found c h1 h2
  refine ⟨0x20 + (idx - 1) * DELAY_PROFILE_OFFSET + e.2.1, e.2.2, ?_⟩
  unfold get_delay_location
  rw [hfind]
  dsimp only
  rw [if_pos hidx]

theorem get_register_value_lt (a : ℤ) (ha : 0 ≤ a) (l w : ℕ) :
    get_register_value a l (some w) < 2 ^ w := by
  have hpow := cast_two_pow w
  have h1 : (1 : ℕ) ≤ 2 ^ w := Nat.one_le_two_pow
  rw [← Int.toNat_of_nonneg ha, get_register_value_coe_nat]
  have h2 : natGet a.toNat l w ≤ 2 ^ w - 1 := Nat.and_le_right
  omega

theorem set_register_value_error_eq (reg v : ℤ) (lsb w : ℕ) (e : Err)
    (h : set_register_value reg v lsb (some w) = .error e) : e = .valueOutOfRange := by
  rw [set_register_value_some] at h
  split at h
  · simpa using h.symm
  · exact Except.noConfusion h

theorem delay_chan_step_ok (s : Tx7332Registers) (p : DelayProfile) (conv : ℚ)
    (d : Dict) (c : ℕ) (d1 : Dict)
    (hconv : getunitconversion p.units "s" = .ok conv)
    (hd : ∀ a, 0 ≤ dictGetD d a 0)
    (hok : delay_chan_step s p d c = .ok d1) :
    ∃ a l, get_delay_location (c : ℤ) p.index = .ok (a, l) ∧
      (∀ a', 0 ≤ dictGetD d1 a' 0) ∧
      get_register_value (dictGetD d1 a 0) l (some DELAY_WIDTH) =
        pyInt (p.delays.getD (c - 1) 0 * conv * s.bf_clk) ∧
      (∀ a', a' ≠ a → dictGetD d1 a' 0 = dictGetD d a' 0) ∧
      (∀ l' : ℕ, l' + DELAY_WIDTH ≤ l ∨ l + DELAY_WIDTH ≤ l' →
        get_register_value (dictGetD d1 a 0) l' (some DELAY_WIDTH) =
          get_register_value (dictGetD d a 0) l' (some DELAY_WIDTH)) := by
  unfold delay_chan_step at hok
  cases hloc : get_delay_location (c : ℤ) p.index with
  | error e =>
    rw [hloc, except_bind_error] at hok
    exact Except.noConfusion hok
  | ok loc =>
    obtain ⟨a, l⟩ := loc
    rw [hloc, except_bind_ok, hconv, except_bind_ok] at hok
    cases hdel : listIndex p.delays (c - 1) with
    | error e =>
      rw [hdel, except_bind_error] at hok
      exact Except.noConfusion hok
    | ok delay =>
      rw [hdel, except_bind_ok] at hok
      dsimp only at hok
      have hens_self : dictGetD (if (dictGet? d a).isSome then d else dictSet d a 0) a 0 =
          dictGetD d a 0 := dictGetD_ensure_self d a
      have hens_nonneg : ∀ x, 0 ≤ dictGetD
          (if (dictGet? d a).isSome then d else dictSet d a 0) x 0 := by
        intro x
        by_cases hx : x = a
        · rw [hx, hens_self]
          exact hd a
        · rw [dictGetD_ensure_other d a x hx]
          exact hd x
      cases hset : set_register_value
          (dictGetD (if (dictGet? d a).isSome then d else dictSet d a 0) a 0)
          (pyInt (delay * conv * s.bf_clk)) l (some DELAY_WIDTH) with
      | error e =>
        rw [hset, except_bind_error] at hok
        exact Except.noConfusion hok
      | ok nv =>
        rw [hset, except_bind_ok] at hok
        simp only [Except.ok.injEq] at hok
        subst hok
        have hdelay : p.delays.getD (c - 1) 0 = delay := by
          unfold listIndex at hdel
          cases hg : p.delays.get? (c - 1) with
          | none =>
            rw [hg] at hdel
            exact Except.noConfusion hdel
          | some x =>
            rw [hg] at hdel
            simp only [Except.ok.injEq] at hdel
            subst hdel
            rw [List.getD_eq_get?, hg]
            rfl
        have hnn := set_ok_nonneg _ _ _ _ _ (hens_nonneg a) hset
        refine ⟨a, l, rfl, ?_, ?_, ?_, ?_⟩
        · intro a'
          by_cases hx : a' = a
          · rw [hx, dictGetD_set_self]
            exact hnn
          · rw [dictGetD_set_other _ _ _ _ hx, dictGetD_ensure_other d a a' hx]
            exact hd a'
        · rw [dictGetD_set_self, hdelay]
          rw [hens_self] at hset
          exact get_set_same _ _ _ _ _ (hd a) hset
        · intro a' hx
          rw [dictGetD_set_other _ _ _ _ hx, dictGetD_ensure_other d a a' hx]
        · intro l' hdisj
          rw [dictGetD_set_self]
          rw [hens_self] at hset
          exact get_set_preserve _ _ _ _ _ _ _ (hd a) hset hdisj

theorem delay_chan_step_error (s : Tx7332Registers) (p : DelayProfile) (conv : ℚ)
    (d : Dict) (c : ℕ) (e : Err)
    (hconv : getunitconversion p.units "s" = .ok conv)
    (hidx : p.index ∈ DELAY_PROFILE_INDICES)
    (hlen : p.delays.length = 32)
    (h1 : 1 ≤ c) (h2 : c ≤ 32)
    (herr : delay_chan_step s p d c = .error e) : e = .valueOutOfRange := by
  unfold delay_chan_step at herr
  obtain ⟨a, l, hloc⟩ := get_delay_location_exists c p.index h1 h2 hidx
  rw [hloc, except_bind_ok, hconv, except_bind_ok] at herr
  have hdel : ∃ x, listIndex p.delays (c - 1) = .ok x := by
    unfold listIndex
    cases hg : p.delays.get? (c - 1) with
    | none =>
      rw [List.get?_eq_none] at hg
      omega
    | some x => exact ⟨x, rfl⟩
  obtain ⟨delay, hdel⟩ := hdel
  rw [hdel, except_bind_ok] at herr
  dsimp only at herr
  cases hset : set_register_value
      (dictGetD (if (dictGet? d a).isSome then d else dictSet d a 0) a 0)
      (pyInt (delay * conv * s.bf_clk)) l (some DELAY_WIDTH) with
  | error e' =>
    rw [hset, except_bind_error] at herr
    simp only [Except.error.injEq] at herr
    subst herr
    exact set_register_value_error_eq _ _ _ _ _ hset
  | ok nv =>
    rw [hset, except_bind_ok] at herr
    exact Except.noConfusion herr

theorem delay_fold_spec (s : Tx7332Registers) (p : DelayProfile) (conv : ℚ)
    (hconv : getunitconversion p.units "s" = .ok conv) :
    ∀ (cs : List ℕ) (d r : Dict), cs.Nodup →
    (∀ a, 0 ≤ dictGetD d a 0) →
    cs.foldlM (delay_chan_step s p) d = .ok r →
    (∀ a, 0 ≤ dictGetD r a 0) ∧
    (∀ c ∈ cs, ∀ a l, get_delay_location (c : ℤ) p.index = .ok (a, l) →
      get_register_value (dictGetD r a 0) l (some DELAY_WIDTH) =
        pyInt (p.delays.getD (c - 1) 0 * conv * s.bf_clk)) ∧
    (∀ (a : ℤ) (l : ℕ), (l = 0 ∨ l = 16) →
      (∀ c ∈ cs, ¬ (get_delay_location (c : ℤ) p.index = .ok (a, l))) →
      get_register_value (dictGetD r a 0) l (some DELAY_WIDTH) =
        get_register_value (dictGetD d a 0) l (some DELAY_WIDTH)) := by
  intro cs
  induction cs with
  | nil =>
    intro d r _ hd h
    simp only [List.foldlM, pure, Except.pure, Except.ok.injEq] at h
    subst h
    exact ⟨hd, by simp, fun a l _ _ => rfl⟩
  | cons c cs ih =>
    intro d r hnd hd h
    rw [List.foldlM_cons] at h
    cases hstep : delay_chan_step s p d c with
    | error e =>
      rw [hstep, except_bind_error] at h
      exact Except.noConfusion h
    | ok d1 =>
      rw [hstep, except_bind_ok] at h
      obtain ⟨a, l, hloc, hnn1, hfield, hother, hpres⟩ :=
        delay_chan_step_ok s p conv d c d1 hconv hd hstep
      have hnd' : cs.Nodup := (List.nodup_cons.mp hnd).2
      have hcnotin : c ∉ cs := (List.nodup_cons.mp hnd).1
      obtain ⟨ihnn, ihself, ihpres⟩ := ih d1 r hnd' hnn1 h
      refine ⟨ihnn, ?_, ?_⟩
      · intro c0 hc0 a0 l0 hloc0
        rcases List.mem_cons.mp hc0 with rfl | hc0'
        · have haeq : a0 = a ∧ l0 = l := by
            rw [hloc0] at hloc
            simp only [Except.ok.injEq, Prod.mk.injEq] at hloc
            exact ⟨hloc.1, hloc.2⟩
          obtain ⟨rfl, rfl⟩ := haeq
          have hnotouch : ∀ c' ∈ cs, ¬ (get_delay_location (c' : ℤ) p.index = .ok (a0, l0)) := by
            intro c' hc' hcontra
            exact hcnotin (delay_loc_inj c0 c' p.index a0 l0 hloc0 hcontra ▸ hc')
          rw [ihpres a0 l0 (delay_loc_lsb _ _ _ _ hloc0) hnotouch]
          rw [hloc0] at hloc
          exact hfield
        · exact ihself c0 hc0' a0 l0 hloc0
      · intro a0 l0 hl0 hno
        have hno' : ∀ c' ∈ cs, ¬ (get_delay_location (c' : ℤ) p.index = .ok (a0, l0)) :=
          fun c' hc' => hno c' (List.mem_cons_of_mem c hc')
        rw [ihpres a0 l0 hl0 hno']
        by_cases hx : a0 = a
        · subst hx
          have hll : ¬ (l0 = l) := by
            intro hcontra
            exact hno c (List.mem_cons_self c cs) (hcontra ▸ hloc)
          have hll2 := delay_loc_lsb _ _ _ _ hloc
          apply hpres
          rw [DELAY_WIDTH]
          omega
        · rw [hother a0 hx]

theorem delay_fold_error (s : Tx7332Registers) (p : DelayProfile) (conv : ℚ)
    (hconv : getunitconversion p.units "s" = .ok conv)
    (hidx : p.index ∈ DELAY_PROFILE_INDICES)
    (hlen : p.delays.length = 32) :
    ∀ (cs : List ℕ), (∀ c ∈ cs, 1 ≤ c ∧ c ≤ 32) → ∀ d e,
    cs.foldlM (delay_chan_step s p) d = .error e → e = .valueOutOfRange := by
  intro cs
  induction cs with
  | nil =>
    intro _ d e h
    simp only [List.foldlM, pure, Except.pure] at h
    exact Except.noConfusion h
  | cons c cs ih =>
    intro hcs d e h
    rw [List.foldlM_cons] at h
    cases hstep : delay_chan_step s p d c with
    | error e' =>
      rw [hstep, except_bind_error] at h
      simp only [Except.error.injEq] at h
      subst h
      exact delay_chan_step_error s p conv d c e' hconv hidx hlen
        (hcs c (List.mem_cons_self c cs)).1 (hcs c (List.mem_cons_self c cs)).2 hstep
    | ok d1 =>
      rw [hstep, except_bind_ok] at h
      exact ih (fun c' hc' => hcs c' (List.mem_cons_of_mem c hc')) d1 e h

theorem dictGetD_nil (a : ℤ) : dictGetD [] a 0 = 0 := rfl

/-- C3 (amended): for every delay profile being encoded, the tick count
written for channel `c` is `int(delay * conversion * bf_clk)` — truncation
toward zero, not `round` — stored as a 13-bit field at the channel's
`(address, lsb)` location; the operation fails with `ValueOutOfRange` when a
tick count reaches `2^13`. -/
theorem C3_delay_encoding_amended (s : Tx7332Registers) (idx : Option ℤ)
    (p : DelayProfile) (conv : ℚ)
    (hp : get_delay_profile s idx = .ok p)
    (hidx : p.index ∈ DELAY_PROFILE_INDICES)
    (hlen : p.delays.length = 32)
    (hconv : getunitconversion p.units "s" = .ok conv) :
    (∀ regs, get_delay_data_registers s idx = .ok regs →
      ∀ c : ℕ, 1 ≤ c → c ≤ 32 → ∀ (a : ℤ) (l : ℕ),
        get_delay_location (c : ℤ) p.index = .ok (a, l) →
        get_register_value (dictGetD regs a 0) l (some DELAY_WIDTH) =
          pyInt (p.delays.getD (c - 1) 0 * conv * s.bf_clk)) ∧
    ((∃ c : ℕ, 1 ≤ c ∧ c ≤ 32 ∧
        2 ^ DELAY_WIDTH ≤ pyInt (p.delays.getD (c - 1) 0 * conv * s.bf_clk)) →
      get_delay_data_registers s idx = .error .valueOutOfRange) := by
  have hunfold : get_delay_data_registers s idx =
      (List.range' 1 NUM_CHANNELS).foldlM (delay_chan_step s p) [] := by
    unfold get_delay_data_registers
    rw [hp, except_bind_ok]
  have hmem_range : ∀ c : ℕ, 1 ≤ c → c ≤ 32 → c ∈ List.range' 1 NUM_CHANNELS := by
    intro c h1 h2
    rw [NUM_CHANNELS, List.mem_range']
    exact ⟨c - 1, by omega, by omega⟩
  have hnodup : (List.range' 1 NUM_CHANNELS).Nodup := by decide
  have hd0 : ∀ a : ℤ, 0 ≤ dictGetD [] a 0 := by
    intro a
    rw [dictGetD_nil]
  constructor
  · intro regs hregs c h1 h2 a l hloc
    rw [hunfold] at hregs
    obtain ⟨-, hself, -⟩ := delay_fold_spec s p conv hconv _ [] regs hnodup hd0 hregs
    exact hself c (hmem_range c h1 h2) a l hloc
  · rintro ⟨c, h1, h2, hbad⟩
    cases hres : get_delay_data_registers s idx with
    | ok regs =>
      exfalso
      rw [hunfold] at hres
      obtain ⟨hnn, hself, -⟩ := delay_fold_spec s p conv hconv _ [] regs hnodup hd0 hres
      obtain ⟨a, l, hloc⟩ := get_delay_location_exists c p.index h1 h2 hidx
      have hfield := hself c (hmem_range c h1 h2) a l hloc
      have hlt := get_register_value_lt (dictGetD regs a 0) (hnn a) l DELAY_WIDTH
      rw [hfield] at hlt
      simp only [DELAY_WIDTH] at hbad hlt
      omega
    | error e =>
      rw [hunfold] at hres
      have hvr := delay_fold_error s p conv hconv hidx hlen _ ?hbnd [] e hres
      · rw [hvr]
      case hbnd =>
        intro c' hc'
        rw [NUM_CHANNELS, List.mem_range'] at hc'
        obtain ⟨i, hi, rfl⟩ := hc'
        omega

def dpC3 : DelayProfile :=
  ⟨1, (11 / 64 : ℚ) :: List.replicate 31 0, List.replicate 32 1, "s"⟩

def sC3 : Tx7332Registers := ⟨16, [dpC3], [], some 1, none⟩

def regsC3 : Dict :=
  match get_delay_data_registers sC3 (some 1) with
  | .ok d => d
  | .error _ => []

set_option maxRecDepth 100000 in
/-- C3 counterexample: with `bf_clk = 16 Hz` and `delays[0] = 11/64 s` (both
exact in binary floating point), the float tick count is `2.75`; channel 1
maps to `(0x2F, lsb 0)` and the stored field is `int(2.75) = 2`, while the
claim's `round(2.75) = 3`. -/
theorem C3_counterexample :
    get_delay_data_registers sC3 (some 1) = .ok regsC3 ∧
    get_delay_location 1 1 = .ok (0x2F, 0) ∧
    get_register_value (dictGetD regsC3 0x2F 0) 0 (some DELAY_WIDTH) = 2 ∧
    round ((11 / 64 : ℚ) * 1 * 16) = 3 ∧ (2 : ℤ) ≠ 3 := by
  refine ⟨by with_unfolding_all rfl, by with_unfolding_all rfl,
    by with_unfolding_all rfl, ?_, by decide⟩
  with_unfolding_all rfl

set_option maxRecDepth 100000 in
/-- Witness for C3: the field stored for channel 1 of `sC3` equals the
truncated tick count. -/
theorem C3_delay_encoding_amended_witness :
    get_register_value (dictGetD regsC3 0x2F 0) 0 (some DELAY_WIDTH) =
      pyInt (dpC3.delays.getD 0 0 * 1 * sC3.bf_clk) :=
  (C3_delay_encoding_amended sC3 (some 1) dpC3 1 (by with_unfolding_all rfl) (by decide)
      (by with_unfolding_all rfl) (by with_unfolding_all rfl)).1 regsC3
    (by with_unfolding_all rfl) 1 (by omega) (by omega) 0x2F 0 (by with_unfolding_all rfl)

/-! ## Pulse control registers and C7 -/

/-- `Tx7332Registers.get_pulse_control_registers`.  The source also builds
the sampled waveform `y`, `t`; those arrays are dead values except that the
elastic branch evaluates `16*elastic_repeat / period_samples` before the
overflow check, which raises `ZeroDivisionError` when
`int(clk_n / frequency) == 0`. -/
def get_pulse_control_registers (s : Tx7332Registers) (index : Option ℤ) :
    Except Err Dict := do
  let pulse_profile ← get_pulse_profile s index
  if pulse_profile.index ∉ PATTERN_PROFILE_INDICES then .error .invalidProfileIndex
  else do
    let pattern ← calc_pulse_pattern pulse_profile.frequency pulse_profile.duty_cycle s.bf_clk
    let clk_div_n := pattern.clk_div_n
    let clk_div : ℚ := 2 ^ clk_div_n
    let clk_n := s.bf_clk / clk_div
    let cycles := pulse_profile.cycles
    let rep ← (if MAX_REPEAT + 1 < cycles then do
        let pulse_duration_samples := (cycles : ℚ) * s.bf_clk / pulse_profile.frequency
        let elastic_repeat := pyInt (pulse_duration_samples / 16)
        let period_samples := pyInt (clk_n / pulse_profile.frequency)
        if period_samples = 0 then .error .divisionByZero
        else if MAX_ELASTIC_REPEAT < elastic_repeat then .error .patternOverflow
        else .ok ((0 : ℤ), elastic_repeat, (1 : ℤ))
      else .ok (cycles - 1, (0 : ℤ), (0 : ℤ)))
    let reg_mode0 : ℤ := 0x02000003
    let reg_mode1 ← set_register_value reg_mode0 (clk_div_n : ℤ) 3 (some 3)
    let reg_mode ← set_register_value reg_mode1
      (if pulse_profile.invert then 1 else 0) 6 (some 1)
    let r0 ← set_register_value 0 rep.1 1 (some 5)
    let r1 ← set_register_value r0 pulse_profile.tail_count 6 (some 5)
    let r2 ← set_register_value r1 rep.2.2 11 (some 1)
    let reg_repeat ← set_register_value r2 rep.2.1 12 (some 16)
    let reg_pat_sel ← set_register_value 0 (pulse_profile.index - 1) 0 (some 6)
    .ok [(ADDRESS_PATTERN_MODE, reg_mode), (ADDRESS_PATTERN_REPEAT, reg_repeat),
         (ADDRESS_PATTERN_SEL_G1, reg_pat_sel), (ADDRESS_PATTERN_SEL_G2, reg_pat_sel)]

theorem pack_repeat_fields (repv er em tail r0 r1 r2 rr : ℤ)
    (h0 : set_register_value 0 repv 1 (some 5) = .ok r0)
    (h1 : set_register_value r0 tail 6 (some 5) = .ok r1)
    (h2 : set_register_value r1 em 11 (some 1) = .ok r2)
    (h3 : set_register_value r2 er 12 (some 16) = .ok rr) :
    get_register_value rr 1 (some 5) = repv ∧
    get_register_value rr 6 (some 5) = tail ∧
    get_register_value rr 11 (some 1) = em ∧
    get_register_value rr 12 (some 16) = er := by
  have hr0 : (0 : ℤ) ≤ r0 := set_ok_nonneg _ _ _ _ _ (by omega) h0
  have hr1 : (0 : ℤ) ≤ r1 := set_ok_nonneg _ _ _ _ _ hr0 h1
  have hr2 : (0 : ℤ) ≤ r2 := set_ok_nonneg _ _ _ _ _ hr1 h2
  refine ⟨?_, ?_, ?_, ?_⟩
  · rw [get_set_preserve _ _ _ _ _ _ _ hr2 h3 (by omega),
      get_set_preserve _ _ _ _ _ _ _ hr1 h2 (by omega),
      get_set_preserve _ _ _ _ _ _ _ hr0 h1 (by omega)]
    exact get_set_same _ _ _ _ _ (by omega) h0
  · rw [get_set_preserve _ _ _ _ _ _ _ hr2 h3 (by omega),
      get_set_preserve _ _ _ _ _ _ _ hr1 h2 (by omega)]
    exact get_set_same _ _ _ _ _ hr0 h1
  · rw [get_set_preserve _ _ _ _ _ _ _ hr2 h3 (by omega)]
    exact get_set_same _ _ _ _ _ hr1 h2
  · exact get_set_same _ _ _ _ _ hr2 h3

/-- C7 (amended): whenever `get_pulse_control_registers` succeeds, register
`0x19` carries `repeat` in bits `[1..6)`, `tail_count` in `[6..11)`,
`elastic_mode` at bit 11 and `elastic_repeat` in `[12..28)`, with
`(repeat, elastic_repeat, elastic_mode) = (0, ⌊cycles*bf_clk/frequency/16⌋, 1)`
when `cycles > 32` and `(cycles-1, 0, 0)` otherwise; and when `cycles > 32`
and `elastic_repeat > 65535` the call fails with `PatternOverflow` — provided
the divided clock yields at least one sample per period
(`int(clk_n/frequency) ≠ 0`; when it yields zero the source instead crashes
with `ZeroDivisionError`, see the counterexample). -/
theorem C7_pulse_repeat_amended (s : Tx7332Registers) (idx : Option ℤ)
    (p : PulseProfile) (hp : get_pulse_profile s idx = .ok p) :
    (∀ regs, get_pulse_control_registers s idx = .ok regs →
      (MAX_REPEAT + 1 < p.cycles →
        get_register_value (dictGetD regs ADDRESS_PATTERN_REPEAT 0) 1 (some 5) = 0 ∧
        get_register_value (dictGetD regs ADDRESS_PATTERN_REPEAT 0) 6 (some 5) =
          p.tail_count ∧
        get_register_value (dictGetD regs ADDRESS_PATTERN_REPEAT 0) 11 (some 1) = 1 ∧
        get_register_value (dictGetD regs ADDRESS_PATTERN_REPEAT 0) 12 (some 16) =
          pyInt ((p.cycles : ℚ) * s.bf_clk / p.frequency / 16)) ∧
      (p.cycles ≤ MAX_REPEAT + 1 →
        get_register_value (dictGetD regs ADDRESS_PATTERN_REPEAT 0) 1 (some 5) =
          p.cycles - 1 ∧
        get_register_value (dictGetD regs ADDRESS_PATTERN_REPEAT 0) 6 (some 5) =
          p.tail_count ∧
        get_register_value (dictGetD regs ADDRESS_PATTERN_REPEAT 0) 11 (some 1) = 0 ∧
        get_register_value (dictGetD regs ADDRESS_PATTERN_REPEAT 0) 12 (some 16) = 0)) ∧
    (∀ pat, p.index ∈ PATTERN_PROFILE_INDICES →
      calc_pulse_pattern p.frequency p.duty_cycle s.bf_clk = .ok pat →
      MAX_REPEAT + 1 < p.cycles →
      ¬ pyInt (s.bf_clk / 2 ^ pat.clk_div_n / p.frequency) = 0 →
      MAX_ELASTIC_REPEAT < pyInt ((p.cycles : ℚ) * s.bf_clk / p.frequency / 16) →
      get_pulse_control_registers s idx = .error .patternOverflow) := by
  constructor
  · intro regs hok
    unfold get_pulse_control_registers at hok
    rw [hp, except_bind_ok] at hok
    by_cases hidx : p.index ∉ PATTERN_PROFILE_INDICES
    · rw [if_pos hidx] at hok
      exact Except.noConfusion hok
    rw [if_neg hidx] at hok
    cases hcalc : calc_pulse_pattern p.frequency p.duty_cycle s.bf_clk with
    | error e =>
      rw [hcalc, except_bind_error] at hok
      exact Except.noConfusion hok
    | ok pat =>
      rw [hcalc, except_bind_ok] at hok
      dsimp only at hok
      by_cases hcyc : MAX_REPEAT + 1 < p.cycles
      · rw [if_pos hcyc] at hok
        by_cases hz : pyInt (s.bf_clk / 2 ^ pat.clk_div_n / p.frequency) = 0
        · rw [if_pos hz, except_bind_error] at hok
          exact Except.noConfusion hok
        rw [if_neg hz] at hok
        by_cases hov : MAX_ELASTIC_REPEAT <
            pyInt ((p.cycles : ℚ) * s.bf_clk / p.frequency / 16)
        · rw [if_pos hov, except_bind_error] at hok
          exact Except.noConfusion hok
        rw [if_neg hov, except_bind_ok] at hok
        dsimp only at hok
        cases hm1 : set_register_value 0x02000003 (pat.clk_div_n : ℤ) 3 (some 3) with
        | error e =>
          rw [hm1, except_bind_error] at hok
          exact Except.noConfusion hok
        | ok m1 =>
        rw [hm1, except_bind_ok] at hok
        cases hm2 : set_register_value m1 (if p.invert then 1 else 0) 6 (some 1) with
        | error e =>
          rw [hm2, except_bind_error] at hok
          exact Except.noConfusion hok
        | ok m2 =>
        rw [hm2, except_bind_ok] at hok
        cases h0 : set_register_value 0 (0 : ℤ) 1 (some 5) with
        | error e =>
          rw [h0, except_bind_error] at hok
          exact Except.noConfusion hok
        | ok r0 =>
        rw [h0, except_bind_ok] at hok
        cases h1 : set_register_value r0 p.tail_count 6 (some 5) with
        | error e =>
          rw [h1, except_bind_error] at hok
          exact Except.noConfusion hok
        | ok r1 =>
        rw [h1, except_bind_ok] at hok
        cases h2 : set_register_value r1 (1 : ℤ) 11 (some 1) with
        | error e =>
          rw [h2, except_bind_error] at hok
          exact Except.noConfusion hok
        | ok r2 =>
        rw [h2, except_bind_ok] at hok
        cases h3 : set_register_value r2
            (pyInt ((p.cycles : ℚ) * s.bf_clk / p.frequency / 16)) 12 (some 16) with
        | error e =>
          rw [h3, except_bind_error] at hok
          exact Except.noConfusion hok
        | ok rr =>
        rw [h3, except_bind_ok] at hok
        cases h4 : set_register_value 0 (p.index - 1) 0 (some 6) with
        | error e =>
          rw [h4, except_bind_error] at hok
          exact Except.noConfusion hok
        | ok sel =>
        rw [h4, except_bind_ok] at hok
        simp only [Except.ok.injEq] at hok
        subst hok
        have hfind : dictGetD [(ADDRESS_PATTERN_MODE, m2), (ADDRESS_PATTERN_REPEAT, rr),
            (ADDRESS_PATTERN_SEL_G1, sel), (ADDRESS_PATTERN_SEL_G2, sel)]
            ADDRESS_PATTERN_REPEAT 0 = rr := by
          simp [dictGetD, dictGet?, ADDRESS_PATTERN_MODE, ADDRESS_PATTERN_REPEAT]
        rw [hfind]
        obtain ⟨f1, f2, f3, f4⟩ := pack_repeat_fields _ _ _ _ _ _ _ _ h0 h1 h2 h3
        exact ⟨fun _ => ⟨f1, f2, f3, f4⟩, fun hc => absurd hcyc (by omega)⟩
      · rw [if_neg hcyc, except_bind_ok] at hok
        dsimp only at hok
        cases hm1 : set_register_value 0x02000003 (pat.clk_div_n : ℤ) 3 (some 3) with
        | error e =>
          rw [hm1, except_bind_error] at hok
          exact Except.noConfusion hok
        | ok m1 =>
        rw [hm1, except_bind_ok] at hok
        cases hm2 : set_register_value m1 (if p.invert then 1 else 0) 6 (some 1) with
        | error e =>
          rw [hm2, except_bind_error] at hok
          exact Except.noConfusion hok
        | ok m2 =>
        rw [hm2, except_bind_ok] at hok
        cases h0 : set_register_value 0 (p.cycles - 1) 1 (some 5) with
        | error e =>
          rw [h0, except_bind_error] at hok
          exact Except.noConfusion hok
        | ok r0 =>
        rw [h0, except_bind_ok] at hok
        cases h1 : set_register_value r0 p.tail_count 6 (some 5) with
        | error e =>
          rw [h1, except_bind_error] at hok
          exact Except.noConfusion hok
        | ok r1 =>
        rw [h1, except_bind_ok] at hok
        cases h2 : set_register_value r1 (0 : ℤ) 11 (some 1) with
        | error e =>
          rw [h2, except_bind_error] at hok
          exact Except.noConfusion hok
        | ok r2 =>
        rw [h2, except_bind_ok] at hok
        cases h3 : set_register_value r2 (0 : ℤ) 12 (some 16) with
        | error e =>
          rw [h3, except_bind_error] at hok
          exact Except.noConfusion hok
        | ok rr =>
        rw [h3, except_bind_ok] at hok
        cases h4 : set_register_value 0 (p.index - 1) 0 (some 6) with
        | error e =>
          rw [h4, except_bind_error] at hok
          exact Except.noConfusion hok
        | ok sel =>
        rw [h4, except_bind_ok] at hok
        simp only [Except.ok.injEq] at hok
        subst hok
        have hfind : dictGetD [(ADDRESS_PATTERN_MODE, m2), (ADDRESS_PATTERN_REPEAT, rr),
            (ADDRESS_PATTERN_SEL_G1, sel), (ADDRESS_PATTERN_SEL_G2, sel)]
            ADDRESS_PATTERN_REPEAT 0 = rr := by
          simp [dictGetD, dictGet?, ADDRESS_PATTERN_MODE, ADDRESS_PATTERN_REPEAT]
        rw [hfind]
        obtain ⟨f1, f2, f3, f4⟩ := pack_repeat_fields _ _ _ _ _ _ _ _ h0 h1 h2 h3
        exact ⟨fun hc => absurd hc (by omega), fun _ => ⟨f1, f2, f3, f4⟩⟩
  · intro pat hidx hcalc hcyc hz hov
    unfold get_pulse_control_registers
    rw [hp, except_bind_ok, if_neg (not_not_intro hidx), hcalc, except_bind_ok]
    dsimp only
    rw [if_pos hcyc, if_neg hz, if_pos hov, except_bind_error]

def ppC7 : PulseProfile := ⟨1, 2, 3000000, 33 / 50, 29, false⟩

def sC7 : Tx7332Registers := ⟨1, [], [ppC7], none, some 1⟩

/-- C7 counterexample: with `bf_clk = 1 Hz`, `frequency = 2 Hz` and
`cycles = 3000000`, the pattern succeeds at `clk_div_n = 0` with
`int(clk_n/frequency) = 0`, and `elastic_repeat = 93750 > 65535`; the claim
says the call fails with `PatternOverflow`, but the source divides by
`period_samples = 0` first and raises `ZeroDivisionError`. -/
theorem C7_counterexample :
    MAX_REPEAT + 1 < ppC7.cycles ∧
    MAX_ELASTIC_REPEAT < pyInt ((ppC7.cycles : ℚ) * sC7.bf_clk / ppC7.frequency / 16) ∧
    get_pulse_control_registers sC7 none = .error .divisionByZero ∧
    Err.divisionByZero ≠ Err.patternOverflow := by
  refine ⟨by decide, by with_unfolding_all decide, by with_unfolding_all rfl, by decide⟩

def ppC7w : PulseProfile := ⟨1, 500000, 100, 33 / 50, 29, false⟩

def sC7w : Tx7332Registers := ⟨64000000, [], [ppC7w], none, some 1⟩

def regsC7w : Dict :=
  match get_pulse_control_registers sC7w none with
  | .ok d => d
  | .error _ => []

/-- Witness for C7 at spec scenario S3: `frequency = 500 kHz`, `cycles = 100`,
`bf_clk = 64 MHz` (elastic repeat, `elastic_repeat = 800`). -/
theorem C7_pulse_repeat_amended_witness :
    get_register_value (dictGetD regsC7w ADDRESS_PATTERN_REPEAT 0) 1 (some 5) = 0 ∧
    get_register_value (dictGetD regsC7w ADDRESS_PATTERN_REPEAT 0) 6 (some 5) =
      ppC7w.tail_count ∧
    get_register_value (dictGetD regsC7w ADDRESS_PATTERN_REPEAT 0) 11 (some 1) = 1 ∧
    get_register_value (dictGetD regsC7w ADDRESS_PATTERN_REPEAT 0) 12 (some 16) =
      pyInt ((ppC7w.cycles : ℚ) * sC7w.bf_clk / ppC7w.frequency / 16) :=
  ((C7_pulse_repeat_amended sC7w none ppC7w (by with_unfolding_all rfl)).1 regsC7w
    (by with_unfolding_all rfl)).1 (by decide)

/-! ## Pulse data registers, the full register image, and C4 -/

/-- The `level_lut = {-1: 0b01, 0: 0b00, 1: 0b10}` dictionary (a missing key
raises `KeyError`). -/
def level_lut (level : ℤ) : Except Err ℤ :=
  if level = -1 then .ok 1
  else if level = 0 then .ok 0
  else if level = 1 then .ok 2
  else .error .keyError

/-- One period write of `get_pulse_data_registers`: `ill = (i, level, length)`
from `enumerate(zip(levels, lengths))`. -/
def pattern_period_step (p : PulseProfile) (d : Dict) (ill : ℕ × ℤ × ℤ) :
    Except Err Dict := do
  let loc ← get_pattern_location ((ill.1 : ℤ) + 1) p.index
  let d := if (dictGet? d loc.1).isSome then d else dictSet d loc.1 0
  let lv ← level_lut ill.2.1
  let v1 ← set_register_value (dictGetD d loc.1 0) lv loc.2.1 (some PATTERN_LEVEL_WIDTH)
  let d := dictSet d loc.1 v1
  let v2 ← set_register_value (dictGetD d loc.1 0) ill.2.2 loc.2.2 (some PATTERN_LENGTH_WIDTH)
  .ok (dictSet d loc.1 v2)

/-- `Tx7332Registers.get_pulse_data_registers` (the `pack = False` path):
write every period of the synthesized pattern, then a terminator
(`level = 0b111, length = 0`) at period `nperiods + 1` when fewer than 16
periods were used. -/
def get_pulse_data_registers (s : Tx7332Registers) (index : Option ℤ) :
    Except Err Dict := do
  let pulse_profile ← get_pulse_profile s index
  let pattern ← calc_pulse_pattern pulse_profile.frequency pulse_profile.duty_cycle s.bf_clk
  let nperiods := pattern.levels.length
  let d ← (pattern.levels.zip pattern.lengths).enum.foldlM
    (pattern_period_step pulse_profile) []
  if nperiods < MAX_PATTERN_PERIODS then do
    let loc ← get_pattern_location ((nperiods : ℤ) + 1) pulse_profile.index
    let d := if (dictGet? d loc.1).isSome then d else dictSet d loc.1 0
    let v1 ← set_register_value (dictGetD d loc.1 0) 7 loc.2.1 (some PATTERN_LEVEL_WIDTH)
    let d := dictSet d loc.1 v1
    let v2 ← set_register_value (dictGetD d loc.1 0) 0 loc.2.2 (some PATTERN_LENGTH_WIDTH)
    .ok (dictSet d loc.1 v2)
  else .ok d

/-- The `profiles` scope selector of `get_registers`. -/
inductive ProfileOpts where
  | active
  | set
  | all
  deriving DecidableEq, Repr

/-- `Tx7332Registers.get_registers` (the `pack = False` path). -/
def get_registers (s : Tx7332Registers) (profiles : ProfileOpts) : Except Err Dict := do
  if s.delay_profiles.length = 0 then .error .notReady
  else if s.pulse_profiles.length = 0 then .error .notReady
  else if s.active_delay_index = none then .error .notReady
  else if s.active_pulse_index = none then .error .notReady
  else do
    let registers : Dict := ADDRESSES_GLOBAL.map fun a => (a, (0 : ℤ))
    let dcr ← get_delay_control_registers s none
    let registers := dictUpdate registers dcr
    let pcr ← get_pulse_control_registers s none
    let registers := dictUpdate registers pcr
    let data ← (match profiles with
      | .active => do
          let dd ← get_delay_data_registers s none
          let pd ← get_pulse_data_registers s none
          Except.ok (dd, pd)
      | opt => do
          let dd0 : Dict :=
            if opt = .all then ADDRESSES_DELAY_DATA.map (fun a => (a, (0 : ℤ))) else []
          let pd0 : Dict :=
            if opt = .all then ADDRESSES_PATTERN_DATA.map (fun a => (a, (0 : ℤ))) else []
          let dd ← s.delay_profiles.foldlM (fun acc q => do
            let r ← get_delay_data_registers s (some q.index)
            Except.ok (dictUpdate acc r)) dd0
          let pd ← s.pulse_profiles.foldlM (fun acc q => do
            let r ← get_pulse_data_registers s (some q.index)
            Except.ok (dictUpdate acc r)) pd0
          Except.ok (dd, pd))
    .ok (dictUpdate (dictUpdate registers data.1) data.2)

theorem except_bind_ok_elim {ε α β : Type} {x : Except ε α} {f : α → Except ε β} {b : β}
    (h : (x >>= f) = .ok b) : ∃ a, x = .ok a ∧ f a = .ok b := by
  cases x with
  | ok a => exact ⟨a, rfl, h⟩
  | error e => exact Except.noConfusion h

theorem dictKeys_set (d : Dict) (k v x : ℤ) :
    x ∈ dictKeys (dictSet d k v) ↔ x ∈ dictKeys d ∨ x = k := by
  unfold dictSet
  split
  · rename_i hany
    unfold dictKeys
    constructor
    · intro hx
      rw [List.map_map] at hx
      obtain ⟨kv, hkv, hmap⟩ := List.mem_map.mp hx
      by_cases hk : (kv.1 == k) = true
      · right
        simp only [Function.comp, hk, if_pos] at hmap
        omega
      · left
        simp only [Function.comp, hk, if_neg, Bool.false_eq_true, not_false_iff] at hmap
        exact List.mem_map.mpr ⟨kv, hkv, by simpa using hmap⟩
    · intro hx
      rw [List.map_map]
      rcases hx with hx | rfl
      · obtain ⟨kv, hkv, hmap⟩ := List.mem_map.mp hx
        refine List.mem_map.mpr ⟨kv, hkv, ?_⟩
        by_cases hk : (kv.1 == k) = true
        · simp only [Function.comp, hk, if_pos]
          simp only [beq_iff_eq] at hk
          omega
        · simp only [Function.comp, hk, if_neg, Bool.false_eq_true, not_false_iff]
          exact hmap
      · obtain ⟨kv, hkv, hk⟩ := List.any_eq_true.mp hany
        refine List.mem_map.mpr ⟨kv, hkv, ?_⟩
        simp only [Function.comp, hk, if_pos]
  · unfold dictKeys
    rw [List.map_append]
    simp only [List.mem_append, List.map_cons, List.map_nil, List.mem_singleton,
      List.mem_cons, List.not_mem_nil, or_false]

theorem dictKeys_update (d1 d2 : Dict) (x : ℤ) :
    x ∈ dictKeys (dictUpdate d1 d2) ↔ x ∈ dictKeys d1 ∨ x ∈ dictKeys d2 := by
  induction d2 generalizing d1 with
  | nil => simp [dictUpdate, dictKeys]
  | cons kv d2 ih =>
    unfold dictUpdate at ih ⊢
    rw [List.foldl_cons]
    rw [ih (dictSet d1 kv.1 kv.2)]
    rw [dictKeys_set]
    unfold dictKeys
    simp only [List.map_cons, List.mem_cons]
    tauto

theorem dictKeys_zero_map (l : List ℤ) :
    dictKeys (l.map fun a => (a, (0 : ℤ))) = l := by
  unfold dictKeys
  rw [List.map_map]
  rw [show ((fun x : ℤ × ℤ => x.1) ∘ fun a : ℤ => (a, (0 : ℤ))) = id from rfl, List.map_id]

/-- Monotonicity and boundedness of the per-profile data update folds. -/
theorem update_fold_keys {α : Type} (g : α → Except Err Dict) (P : ℤ → Prop)
    (hg : ∀ x r, g x = .ok r → ∀ k ∈ dictKeys r, P k) :
    ∀ (ps : List α) (acc r : Dict),
    ps.foldlM (fun acc x => do
      let r ← g x
      Except.ok (dictUpdate acc r)) acc = .ok r →
    (∀ k ∈ dictKeys acc, k ∈ dictKeys r) ∧
    (∀ k ∈ dictKeys r, k ∈ dictKeys acc ∨ P k) := by
  intro ps
  induction ps with
  | nil =>
    intro acc r h
    simp only [List.foldlM, pure, Except.pure, Except.ok.injEq] at h
    subst h
    exact ⟨fun k hk => hk, fun k hk => Or.inl hk⟩
  | cons x ps ih =>
    intro acc r h
    rw [List.foldlM_cons] at h
    obtain ⟨acc', hstep, hrest⟩ := except_bind_ok_elim h
    obtain ⟨rx, hgx, h2⟩ := except_bind_ok_elim hstep
    simp only [Except.ok.injEq] at h2
    subst h2
    obtain ⟨ihmono, ihbound⟩ := ih (dictUpdate acc rx) r hrest
    constructor
    · intro k hk
      exact ihmono k ((dictKeys_update acc rx k).mpr (Or.inl hk))
    · intro k hk
      rcases ihbound k hk with hk' | hP
      · rcases (dictKeys_update acc rx k).mp hk' with h | h
        · exact Or.inl h
        · exact Or.inr (hg x rx hgx k h)
      · exact Or.inr hP

theorem mem_ADDRESSES_DELAY_DATA (k : ℤ) :
    k ∈ ADDRESSES_DELAY_DATA ↔ 32 ≤ k ∧ k < 288 := by
  constructor
  · intro h
    unfold ADDRESSES_DELAY_DATA at h
    rw [List.mem_map] at h
    obtain ⟨n, hn, rfl⟩ := h
    rw [List.mem_range'] at hn
    obtain ⟨i, hi, rfl⟩ := hn
    simp only [Int.ofNat_eq_coe]
    push_cast
    omega
  · rintro ⟨h1, h2⟩
    unfold ADDRESSES_DELAY_DATA
    rw [List.mem_map]
    refine ⟨k.toNat, ?_, by simp only [Int.ofNat_eq_coe]; omega⟩
    rw [List.mem_range']
    exact ⟨k.toNat - 32, by omega, by omega⟩

theorem mem_ADDRESSES_PATTERN_DATA (k : ℤ) :
    k ∈ ADDRESSES_PATTERN_DATA ↔ 288 ≤ k ∧ k < 416 := by
  constructor
  · intro h
    unfold ADDRESSES_PATTERN_DATA at h
    rw [List.mem_map] at h
    obtain ⟨n, hn, rfl⟩ := h
    rw [List.mem_range'] at hn
    obtain ⟨i, hi, rfl⟩ := hn
    simp only [Int.ofNat_eq_coe]
    push_cast
    omega
  · rintro ⟨h1, h2⟩
    unfold ADDRESSES_PATTERN_DATA
    rw [List.mem_map]
    refine ⟨k.toNat, ?_, by simp only [Int.ofNat_eq_coe]; omega⟩
    rw [List.mem_range']
    exact ⟨k.toNat - 288, by omega, by omega⟩

theorem pattern_map_bounds : ∀ e ∈ PATTERN_MAP, 0 ≤ e.2.1 ∧ e.2.1 ≤ 3 := by
  decide

theorem get_pattern_location_ok (per idx a : ℤ) (l1 l2 : ℕ)
    (h : get_pattern_location per idx = .ok (a, l1, l2)) :
    ∃ e ∈ PATTERN_MAP, idx ∈ PATTERN_PROFILE_INDICES ∧
      a = 0x120 + (idx - 1) * PATTERN_PROFILE_OFFSET + e.2.1 := by
  unfold get_pattern_location at h
  cases hfind : PATTERN_MAP.find? (fun e => e.1 == per) with
  | none =>
    rw [hfind] at h
    exact Except.noConfusion h
  | some e =>
    rw [hfind] at h
    dsimp only at h
    by_cases hidx : idx ∈ PATTERN_PROFILE_INDICES
    · rw [if_pos hidx] at h
      simp only [Except.ok.injEq, Prod.mk.injEq] at h
      exact ⟨e, List.mem_of_find?_eq_some hfind, hidx, h.1.symm⟩
    · rw [if_neg hidx] at h
      exact Except.noConfusion h

theorem pattern_loc_addr (per idx a : ℤ) (l1 l2 : ℕ)
    (h : get_pattern_location per idx = .ok (a, l1, l2)) : 288 ≤ a ∧ a < 416 := by
  obtain ⟨e, hmem, hidx, ha⟩ := get_pattern_location_ok per idx a l1 l2 h
  obtain ⟨h1, h2⟩ := (mem_PATTERN_PROFILE_INDICES idx).mp hidx
  obtain ⟨h3, h4⟩ := pattern_map_bounds e hmem
  rw [ha, PATTERN_PROFILE_OFFSET]
  constructor <;> nlinarith

/-- Keys written by one delay channel iteration stay in the delay-data range. -/
theorem delay_step_keys (s : Tx7332Registers) (p : DelayProfile) (d : Dict)
    (c : ℕ) (d1 : Dict) (h : delay_chan_step s p d c = .ok d1) :
    ∀ k ∈ dictKeys d1, k ∈ dictKeys d ∨ (32 ≤ k ∧ k < 288) := by
  unfold delay_chan_step at h
  obtain ⟨⟨a, l⟩, hloc, h⟩ := except_bind_ok_elim h
  obtain ⟨conv, hconv, h⟩ := except_bind_ok_elim h
  obtain ⟨delay, hdel, h⟩ := except_bind_ok_elim h
  obtain ⟨nv, hnv, h⟩ := except_bind_ok_elim h
  simp only [Except.ok.injEq] at h
  subst h
  intro k hk
  have hbound := delay_loc_addr (c : ℤ) p.index a l hloc
  rcases (dictKeys_set _ _ _ _).mp hk with hk' | rfl
  · by_cases hs : (dictGet? d a).isSome = true
    · rw [if_pos hs] at hk'
      exact Or.inl hk'
    · rw [if_neg hs] at hk'
      rcases (dictKeys_set _ _ _ _).mp hk' with hk'' | rfl
      · exact Or.inl hk''
      · exact Or.inr hbound
  · exact Or.inr hbound

theorem delay_fold_keys (s : Tx7332Registers) (p : DelayProfile) :
    ∀ (cs : List ℕ) (d r : Dict), cs.foldlM (delay_chan_step s p) d = .ok r →
    ∀ k ∈ dictKeys r, k ∈ dictKeys d ∨ (32 ≤ k ∧ k < 288) := by
  intro cs
  induction cs with
  | nil =>
    intro d r h
    simp only [List.foldlM, pure, Except.pure, Except.ok.injEq] at h
    subst h
    exact fun k hk => Or.inl hk
  | cons c cs ih =>
    intro d r h
    rw [List.foldlM_cons] at h
    obtain ⟨d1, hstep, hrest⟩ := except_bind_ok_elim h
    intro k hk
    rcases ih d1 r hrest k hk with hk' | hb
    · exact delay_step_keys s p d c d1 hstep k hk'
    · exact Or.inr hb

theorem get_delay_data_registers_keys (s : Tx7332Registers) (idx : Option ℤ)
    (r : Dict) (h : get_delay_data_registers s idx = .ok r) :
    ∀ k ∈ dictKeys r, 32 ≤ k ∧ k < 288 := by
  unfold get_delay_data_registers at h
  obtain ⟨p, hp, h⟩ := except_bind_ok_elim h
  intro k hk
  rcases delay_fold_keys s p _ [] r h k hk with hk' | hb
  · exact absurd hk' (by simp [dictKeys])
  · exact hb

/-- Keys written by one pattern period iteration stay in the pattern-data
range. -/
theorem pattern_step_keys (p : PulseProfile) (d : Dict) (ill : ℕ × ℤ × ℤ)
    (d1 : Dict) (h : pattern_period_step p d ill = .ok d1) :
    ∀ k ∈ dictKeys d1, k ∈ dictKeys d ∨ (288 ≤ k ∧ k < 416) := by
  unfold pattern_period_step at h
  obtain ⟨⟨a, l1, l2⟩, hloc, h⟩ := except_bind_ok_elim h
  obtain ⟨lv, hlv, h⟩ := except_bind_ok_elim h
  obtain ⟨v1, hv1, h⟩ := except_bind_ok_elim h
  obtain ⟨v2, hv2, h⟩ := except_bind_ok_elim h
  simp only [Except.ok.injEq] at h
  subst h
  intro k hk
  have hbound := pattern_loc_addr _ p.index a l1 l2 hloc
  rcases (dictKeys_set _ _ _ _).mp hk with hk' | rfl
  · rcases (dictKeys_set _ _ _ _).mp hk' with hk'' | rfl
    · by_cases hs : (dictGet? d a).isSome = true
      · rw [if_pos hs] at hk''
        exact Or.inl hk''
      · rw [if_neg hs] at hk''
        rcases (dictKeys_set _ _ _ _).mp hk'' with hk3 | rfl
        · exact Or.inl hk3
        · exact Or.inr hbound
    · exact Or.inr hbound
  · exact Or.inr hbound

theorem pattern_fold_keys (p : PulseProfile) :
    ∀ (ills : List (ℕ × ℤ × ℤ)) (d r : Dict),
    ills.foldlM (pattern_period_step p) d = .ok r →
    ∀ k ∈ dictKeys r, k ∈ dictKeys d ∨ (288 ≤ k ∧ k < 416) := by
  intro ills
  induction ills with
  | nil =>
    intro d r h
    simp only [List.foldlM, pure, Except.pure, Except.ok.injEq] at h
    subst h
    exact fun k hk => Or.inl hk
  | cons x xs ih =>
    intro d r h
    rw [List.foldlM_cons] at h
    obtain ⟨d1, hstep, hrest⟩ := except_bind_ok_elim h
    intro k hk
    rcases ih d1 r hrest k hk with hk' | hb
    · exact pattern_step_keys p d x d1 hstep k hk'
    · exact Or.inr hb

theorem get_pulse_data_registers_keys (s : Tx7332Registers) (idx : Option ℤ)
    (r : Dict) (h : get_pulse_data_registers s idx = .ok r) :
    ∀ k ∈ dictKeys r, 288 ≤ k ∧ k < 416 := by
  unfold get_pulse_data_registers at h
  obtain ⟨p, hp, h⟩ := except_bind_ok_elim h
  obtain ⟨pat, hpat, h⟩ := except_bind_ok_elim h
  obtain ⟨d, hd, h⟩ := except_bind_ok_elim h
  have hdk : ∀ k ∈ dictKeys d, 288 ≤ k ∧ k < 416 := by
    intro k hk
    rcases pattern_fold_keys p _ [] d hd k hk with hk' | hb
    · exact absurd hk' (by simp [dictKeys])
    · exact hb
  split at h
  · obtain ⟨⟨a, l1, l2⟩, hloc, h⟩ := except_bind_ok_elim h
    obtain ⟨v1, hv1, h⟩ := except_bind_ok_elim h
    obtain ⟨v2, hv2, h⟩ := except_bind_ok_elim h
    simp only [Except.ok.injEq] at h
    subst h
    intro k hk
    have hbound := pattern_loc_addr _ p.index a l1 l2 hloc
    rcases (dictKeys_set _ _ _ _).mp hk with hk' | rfl
    · rcases (dictKeys_set _ _ _ _).mp hk' with hk'' | rfl
      · by_cases hs : (dictGet? d a).isSome = true
        · rw [if_pos hs] at hk''
          exact hdk k hk''
        · rw [if_neg hs] at hk''
          rcases (dictKeys_set _ _ _ _).mp hk'' with hk3 | rfl
          · exact hdk k hk3
          · exact hbound
      · exact hbound
    · exact hbound
  · simp only [Except.ok.injEq] at h
    subst h
    exact hdk

theorem dcr_keys (s : Tx7332Registers) (idx : Option ℤ) (regs : Dict)
    (h : get_delay_control_registers s idx = .ok regs) :
    dictKeys regs = [ADDRESS_DELAY_SEL, ADDRESS_APODIZATION] := by
  unfold get_delay_control_registers at h
  obtain ⟨p, hp, h⟩ := except_bind_ok_elim h
  obtain ⟨apod, hapod, h⟩ := except_bind_ok_elim h
  obtain ⟨d0, hd0, h⟩ := except_bind_ok_elim h
  obtain ⟨dsel, hdsel, h⟩ := except_bind_ok_elim h
  simp only [Except.ok.injEq] at h
  subst h
  rfl

theorem pcr_keys (s : Tx7332Registers) (idx : Option ℤ) (regs : Dict)
    (h : get_pulse_control_registers s idx = .ok regs) :
    dictKeys regs = [ADDRESS_PATTERN_MODE, ADDRESS_PATTERN_REPEAT,
      ADDRESS_PATTERN_SEL_G1, ADDRESS_PATTERN_SEL_G2] := by
  unfold get_pulse_control_registers at h
  obtain ⟨p, hp, h⟩ := except_bind_ok_elim h
  by_cases hidx : p.index ∉ PATTERN_PROFILE_INDICES
  · rw [if_pos hidx] at h
    exact Except.noConfusion h
  rw [if_neg hidx] at h
  obtain ⟨pat, hpat, h⟩ := except_bind_ok_elim h
  obtain ⟨rep, hrep, h⟩ := except_bind_ok_elim h
  obtain ⟨m1, hm1, h⟩ := except_bind_ok_elim h
  obtain ⟨m2, hm2, h⟩ := except_bind_ok_elim h
  obtain ⟨r0, hr0, h⟩ := except_bind_ok_elim h
  obtain ⟨r1, hr1, h⟩ := except_bind_ok_elim h
  obtain ⟨r2, hr2, h⟩ := except_bind_ok_elim h
  obtain ⟨rr, hrr, h⟩ := except_bind_ok_elim h
  obtain ⟨sel, hsel, h⟩ := except_bind_ok_elim h
  simp only [Except.ok.injEq] at h
  subst h
  rfl

set_option maxRecDepth 100000 in
set_option maxHeartbeats 4000000 in
theorem addresses_nodup : ADDRESSES.Nodup := by decide

set_option maxRecDepth 100000 in
theorem addresses_length : ADDRESSES.length = 399 := by with_unfolding_all rfl

theorem mem_ADDRESSES (k : ℤ) :
    k ∈ ADDRESSES ↔
      k ∈ ADDRESSES_GLOBAL ∨ k ∈ ADDRESSES_DELAY_DATA ∨ k ∈ ADDRESSES_PATTERN_DATA := by
  unfold ADDRESSES
  simp [List.mem_append]

/-- C4 (amended): for every state on which `get_registers("all")` succeeds
(`pack = False`), the key set of the result is exactly the union of the 15
global addresses, the delay-data range `0x20..0x11F` and the pattern-data
range `0x120..0x19F` — and that union has 399 addresses (not 407 as the
specification claims). -/
theorem C4_register_image_keys_amended (s : Tx7332Registers) (regs : Dict)
    (hok : get_registers s .all = .ok regs) :
    (dictKeys regs).toFinset = ADDRESSES.toFinset ∧ ADDRESSES.toFinset.card = 399 := by
  refine ⟨?_, by rw [List.toFinset_card_of_nodup addresses_nodup, addresses_length]⟩
  unfold get_registers at hok
  split at hok
  · exact Except.noConfusion hok
  split at hok
  · exact Except.noConfusion hok
  split at hok
  · exact Except.noConfusion hok
  split at hok
  · exact Except.noConfusion hok
  obtain ⟨dcr, hdcr, hok⟩ := except_bind_ok_elim hok
  obtain ⟨pcr, hpcr, hok⟩ := except_bind_ok_elim hok
  obtain ⟨data, hdata, hok⟩ := except_bind_ok_elim hok
  simp only [Except.ok.injEq] at hok
  subst hok
  dsimp only at hdata
  rw [if_pos rfl, if_pos rfl] at hdata
  obtain ⟨dd, hdd, hdata⟩ := except_bind_ok_elim hdata
  obtain ⟨pd, hpd, hdata⟩ := except_bind_ok_elim hdata
  simp only [Except.ok.injEq] at hdata
  subst hdata
  have hddk : ∀ k, k ∈ dictKeys dd ↔ k ∈ ADDRESSES_DELAY_DATA := by
    intro k
    obtain ⟨hmono, hbound⟩ := update_fold_keys
      (fun q => get_delay_data_registers s (some q.index)) (fun k => 32 ≤ k ∧ k < 288)
      (fun x r hr => get_delay_data_registers_keys s (some x.index) r hr)
      s.delay_profiles (ADDRESSES_DELAY_DATA.map fun a => (a, (0 : ℤ))) dd hdd
    constructor
    · intro hk
      rcases hbound k hk with hk' | hk'
      · rwa [dictKeys_zero_map] at hk'
      · exact (mem_ADDRESSES_DELAY_DATA k).mpr hk'
    · intro hk
      exact hmono k (by rwa [dictKeys_zero_map])
  have hpdk : ∀ k, k ∈ dictKeys pd ↔ k ∈ ADDRESSES_PATTERN_DATA := by
    intro k
    obtain ⟨hmono, hbound⟩ := update_fold_keys
      (fun q => get_pulse_data_registers s (some q.index)) (fun k => 288 ≤ k ∧ k < 416)
      (fun x r hr => get_pulse_data_registers_keys s (some x.index) r hr)
      s.pulse_profiles (ADDRESSES_PATTERN_DATA.map fun a => (a, (0 : ℤ))) pd hpd
    constructor
    · intro hk
      rcases hbound k hk with hk' | hk'
      · rwa [dictKeys_zero_map] at hk'
      · exact (mem_ADDRESSES_PATTERN_DATA k).mpr hk'
    · intro hk
      exact hmono k (by rwa [dictKeys_zero_map])
  have hdcrk := dcr_keys s none dcr hdcr
  have hpcrk := pcr_keys s none pcr hpcr
  apply Finset.ext
  intro k
  rw [List.mem_toFinset, List.mem_toFinset]
  rw [dictKeys_update, dictKeys_update, dictKeys_update, dictKeys_update,
    dictKeys_zero_map, mem_ADDRESSES, hdcrk, hpcrk]
  have hdcr_sub : ∀ x : ℤ, x ∈ [ADDRESS_DELAY_SEL, ADDRESS_APODIZATION] →
      x ∈ ADDRESSES_GLOBAL := by decide
  have hpcr_sub : ∀ x : ℤ, x ∈ [ADDRESS_PATTERN_MODE, ADDRESS_PATTERN_REPEAT,
      ADDRESS_PATTERN_SEL_G1, ADDRESS_PATTERN_SEL_G2] → x ∈ ADDRESSES_GLOBAL := by decide
  constructor
  · rintro ((((h | h) | h) | h) | h)
    · exact Or.inl h
    · exact Or.inl (hdcr_sub k h)
    · exact Or.inl (hpcr_sub k h)
    · exact Or.inr (Or.inl ((hddk k).mp h))
    · exact Or.inr (Or.inr ((hpdk k).mp h))
  · rintro (h | h | h)
    · exact Or.inl (Or.inl (Or.inl (Or.inl h)))
    · exact Or.inl (Or.inr ((hddk k).mpr h))
    · exact Or.inr ((hpdk k).mpr h)

/-- C4 counterexample: the union of the three address ranges has 399
addresses, not 407 (15 global + 256 delay-data + 128 pattern-data). -/
theorem C4_counterexample :
    ADDRESSES.toFinset.card = 399 ∧ ADDRESSES.toFinset.card ≠ 407 := by
  rw [List.toFinset_card_of_nodup addresses_nodup, addresses_length]
  exact ⟨rfl, by decide⟩

def ppC4 : PulseProfile := ⟨1, 4, 3, 1 / 2, 29, false⟩

def sC4 : Tx7332Registers := ⟨16, [dpA], [ppC4], some 1, some 1⟩

def regsC4 : Dict :=
  match get_registers sC4 .all with
  | .ok d => d
  | .error _ => []

set_option maxRecDepth 1000000 in
/-- Witness for C4 at a one-profile state. -/
theorem C4_register_image_keys_amended_witness :
    (dictKeys regsC4).toFinset = ADDRESSES.toFinset ∧ ADDRESSES.toFinset.card = 399 :=
  C4_register_image_keys_amended sC4 regsC4 (by with_unfolding_all rfl)

end Ustx
